import Mathlib

set_option maxRecDepth 100000

/-!
# Verification of the news-tool deduplication and ranking engine

Shallow embedding of `src/processor.py` (class `NewsProcessor`) and the
configuration constants of `src/config.py` of the `workyashvidhruv/news-tool`
repository, together with theorems settling the frozen claims about its
specification.

Modelling conventions:
* Python `str` is Lean `String`; all character-level work happens on
  `String.data : List Char`.  Lowercasing and the `\w` character class are
  modelled at the ASCII level (`Char.toLower`, alphanumeric-or-underscore),
  which agrees with Python on every input exercised here.
* Python `float` arithmetic is modelled exactly over `ℚ`; floating-point
  rounding is out of scope.  Python float division raises `ZeroDivisionError`
  on a zero divisor, which is modelled by `pyDiv` returning `Except`.
* Python dicts keyed by strings are modelled as association lists with
  replace-on-insert semantics (`dictInsert` / `dictGetD`); only lookup is
  observed by the program.
* Python dict records (`article` dicts) are modelled by the `Article`
  structure; a field read via `article.get(k, default)` becomes a structure
  field whose value is the result of that defaulted read, and fields that the
  program may create later (`sources`, `scores`, `summary`, `tags`) are
  `Option`-valued, `none` meaning the key is absent.
* In-place mutation of article dicts (processor.py mutates the records it was
  handed) is modelled heap-style: the batch is a `List Article` store, an
  article is identified by its index, and each stage returns the post-state of
  the store together with the index lists it produces.
-/

/-- Python exceptions that the embedded code can raise. -/
inductive PyErr where
  | zeroDivision
deriving DecidableEq, Repr

instance {ε α : Type} [DecidableEq ε] [DecidableEq α] : DecidableEq (Except ε α) := fun x y =>
  match x, y with
  | .error a, .error b =>
      if h : a = b then .isTrue (by rw [h]) else .isFalse (by intro hc; cases hc; exact h rfl)
  | .error _, .ok _ => .isFalse (by intro hc; cases hc)
  | .ok _, .error _ => .isFalse (by intro hc; cases hc)
  | .ok a, .ok b =>
      if h : a = b then .isTrue (by rw [h]) else .isFalse (by intro hc; cases hc; exact h rfl)

/-- Python float division: raises `ZeroDivisionError` on a zero divisor. -/
def pyDiv (x y : ℚ) : Except PyErr ℚ :=
  if y = 0 then .error .zeroDivision else .ok (x / y)

/-- Python `max` over a list of numbers (processor.py line 190 only applies it
to a non-empty list; the `[]` case is unreachable there). -/
def pyMax : List ℚ → ℚ
  | [] => 0
  | x :: xs => xs.foldl max x

/-- Membership test of Python's `needle in hay` substring operator,
on character lists. -/
def strInL (needle : List Char) : List Char → Bool
  | [] => needle.isPrefixOf []
  | c :: cs => needle.isPrefixOf (c :: cs) || strInL needle cs

/-- Python's `needle in hay` substring operator on strings. -/
def strIn (needle hay : String) : Bool :=
  strInL needle.data hay.data

/-- Python `str.lower()` (ASCII model). -/
def pyLower (s : String) : String :=
  String.mk (s.data.map Char.toLower)

/-- Python regex `\w` character class (ASCII model): alphanumeric or underscore. -/
def isWordChar (c : Char) : Bool :=
  c.isAlphanum || c = '_'

/-- Split a character list on spaces, dropping empty fragments.  `acc` holds
the current fragment reversed. -/
def splitWordsAux : List Char → List Char → List (List Char)
  | [], acc => if acc = [] then [] else [acc.reverse]
  | c :: cs, acc =>
      if c = ' ' then
        (if acc = [] then splitWordsAux cs [] else acc.reverse :: splitWordsAux cs [])
      else splitWordsAux cs (c :: acc)

def splitWords (l : List Char) : List (List Char) :=
  splitWordsAux l []

/-- `NewsProcessor._normalize_text` (processor.py lines 40-49): lowercase,
replace every non-word character by a space (`re.sub(r'[^\w\s]', ' ', ...)`),
collapse whitespace runs and strip (`re.sub(r'\s+', ' ', ...).strip()`).
Whitespace characters are themselves non-word characters, so mapping every
non-word character to `' '` and then splitting/rejoining on spaces computes
the composition of the two substitutions and the strip. -/
def normalize_text (text : String) : String :=
  if text = "" then ""
  else
    String.intercalate " "
      ((splitWords (text.data.map (fun c0 =>
        let c := c0.toLower
        if isWordChar c then c else ' '))).map String.mk)

/-- `NewsProcessor._compute_fingerprint` (processor.py lines 51-54).  The
source hashes the normalized text with MD5; the digest is modelled as the
normalized text itself, i.e. as an injective digest.  No claim depends on
MD5 collisions (the spec explicitly accepts them as unmitigated), and two
texts collide under this model exactly when their normalizations coincide,
which is the equality the deduplicator's fingerprint set is meant to test. -/
def compute_fingerprint (text : String) : String :=
  normalize_text text

/-! ## difflib.SequenceMatcher

`NewsProcessor._compute_similarity` calls
`SequenceMatcher(None, a, b).ratio()`.  `ratio` is `2*M/T` where `T` is the
total length of the two strings and `M` the total size of the matching blocks
of the Ratcliff-Obershelp recursion: find the longest matching block and
recurse on the pieces to its left and to its right (`get_matching_blocks`
processes a work queue, but `M` is the same sum).  `_calculate_ratio`
returns `1.0` when `T = 0`.

`find_longest_match` depends on the junk configuration.  The processor
constructs `SequenceMatcher(None, ...)`, so the `isjunk`-based junk set
`bjunk` is always empty; but the default `autojunk=True` heuristic is
active: when `len(b) >= 200`, every element of `b` occurring more than
`len(b)//100 + 1` times is "popular" and purged from the `b2j` position
index, so the main matching loop never starts or extends a chain on it
(the subsequent extension loops, which only test `bjunk`, still extend
across popular elements).

The model therefore has two regimes:
* `b.length < 200` (autojunk inactive, no junk at all):
  `find_longest_match` then satisfies its documented contract — of all
  maximal matching blocks, the one starting earliest in `a`, then earliest
  in `b` — which `flmBest`/`smMatches` implement directly;
* `b.length ≥ 200`: the algorithm is modelled operationally —
  popularity-purged `b2j` (`b2jPositions`), the `j2len` dynamic program of
  the main loop (`flmDP`), and the two active extension loops
  (`extLeft`/`extRight`); the junk-extension loop pair never fires because
  `bjunk` is empty.  The recursion of `get_matching_blocks` keeps the
  popularity index of the full second string (`smMatchesAJ`). -/

/-- Length of the longest common prefix of two character lists. -/
def matchLen : List Char → List Char → Nat
  | c :: a, d :: b => if c = d then matchLen a b + 1 else 0
  | _, _ => 0

/-- `SequenceMatcher.find_longest_match` start positions: the pair `(i, j)`
maximizing `matchLen (a.drop i) (b.drop j)`, scanning `i` then `j` in
ascending order and replacing only on strict improvement — hence of all
maximal blocks the one with least `i`, then least `j`, as documented for
difflib.  The sentinel start `(a.length, b.length)` has match length 0. -/
def flmBest (a b : List Char) : Nat × Nat :=
  (List.range a.length).foldl (fun acc i =>
    (List.range b.length).foldl (fun acc2 j =>
      if matchLen (a.drop i) (b.drop j) > matchLen (a.drop acc2.1) (b.drop acc2.2)
      then (i, j) else acc2) acc)
    (a.length, b.length)

/-- Total size of the matching blocks of the Ratcliff-Obershelp recursion,
with explicit fuel (structural recursion so that concrete instances compute
by kernel reduction).  Fuel `a.length + b.length + 1` is always sufficient:
each recursive call strictly decreases the total length. -/
def smMatchesF : Nat → List Char → List Char → Nat
  | 0, _, _ => 0
  | fuel + 1, a, b =>
      let p := flmBest a b
      let k := matchLen (a.drop p.1) (b.drop p.2)
      if k = 0 then 0
      else
        smMatchesF fuel (a.take p.1) (b.take p.2) + k +
          smMatchesF fuel (a.drop (p.1 + k)) (b.drop (p.2 + k))

def smMatches (a b : List Char) : Nat :=
  smMatchesF (a.length + b.length + 1) a b

/-- Association lookup with a default, for the `j2len` tables of
`find_longest_match`'s main loop. -/
def lookupNatD (m : List (Nat × Nat)) (k : Nat) (dflt : Nat) : Nat :=
  match m.find? (fun p => p.1 == k) with
  | some p => p.2
  | none => dflt

/-- The autojunk popularity test of `SequenceMatcher.__chain_b`: an element
of `b` is popular when it occurs more than `len(b)//100 + 1` times (only
consulted when `len(b) >= 200`). -/
def isPopularIn (b : List Char) (c : Char) : Bool :=
  b.length / 100 + 1 < b.count c

/-- `b2j.get(c, [])`: the ascending positions of `c` in `b`, with popular
elements purged from the index entirely. -/
def b2jPositions (b : List Char) (pop : Char → Bool) (c : Char) : List Nat :=
  if pop c then []
  else (b.enum.filter (fun p => p.2 == c)).map (fun p => p.1)

/-- One inner-loop step of `find_longest_match`'s dynamic program, at row
`i` and column `j`: `k = j2len.get(j-1, 0) + 1` (the `-1` key never exists,
so `j = 0` reads the default), record `newj2len[j] = k`, and take the block
`(i-k+1, j-k+1, k)` on strict improvement.  `j2len` is the previous row's
table, `st` the pair (current row's table so far, best block so far). -/
def flmRowStep (i : Nat) (j2len : List (Nat × Nat))
    (st : List (Nat × Nat) × (Nat × Nat × Nat)) (j : Nat) :
    List (Nat × Nat) × (Nat × Nat × Nat) :=
  let k := (if j = 0 then 0 else lookupNatD j2len (j - 1) 0) + 1
  ((j, k) :: st.1,
    if st.2.2.2 < k then (i + 1 - k, j + 1 - k, k) else st.2)

/-- The main loop of `find_longest_match` over `i ∈ [alo, ahi)`: for each
row, iterate the `b2j` positions of `a[i]` ascending, skipping `j < blo` and
stopping at `j ≥ bhi`; each row starts a fresh `newj2len` and reads the
previous row's table.  Best starts at `(alo, blo, 0)`. -/
def flmDP (a b : List Char) (pop : Char → Bool) (alo ahi blo bhi : Nat) :
    Nat × Nat × Nat :=
  ((List.range' alo (ahi - alo)).foldl (fun st i =>
      ((((b2jPositions b pop (a.getD i ' ')).filter (fun j => decide (blo ≤ j))).takeWhile
        (fun j => decide (j < bhi))).foldl (flmRowStep i st.1) ([], st.2)))
    ([], (alo, blo, 0))).2

/-- The first (non-junk) left-extension loop of `find_longest_match`: with
`isjunk = None` the `bjunk` set is empty, so its `not isbjunk(b[bestj-1])`
test is vacuously true and the loop extends on plain element equality; the
later junk-extension loop pair never fires.  The fuel bounds the iteration
count; `besti + 1` always suffices since `besti` decreases each step. -/
def extLeft : Nat → List Char → List Char → Nat → Nat → Nat × Nat × Nat → Nat × Nat × Nat
  | 0, _, _, _, _, best => best
  | fuel + 1, a, b, alo, blo, (besti, bestj, k) =>
      if alo < besti ∧ blo < bestj ∧ a.getD (besti - 1) ' ' = b.getD (bestj - 1) ' '
      then extLeft fuel a b alo blo (besti - 1, bestj - 1, k + 1)
      else (besti, bestj, k)

/-- The first (non-junk) right-extension loop of `find_longest_match`
(see `extLeft`); fuel `ahi + 1` always suffices since `besti + bestsize`
stays below `ahi` and grows each step. -/
def extRight : Nat → List Char → List Char → Nat → Nat → Nat × Nat × Nat → Nat × Nat × Nat
  | 0, _, _, _, _, best => best
  | fuel + 1, a, b, ahi, bhi, (besti, bestj, k) =>
      if besti + k < ahi ∧ bestj + k < bhi ∧ a.getD (besti + k) ' ' = b.getD (bestj + k) ' '
      then extRight fuel a b ahi bhi (besti, bestj, k + 1)
      else (besti, bestj, k)

/-- `find_longest_match` with an active popularity purge: the `j2len`
dynamic program followed by the two active extension loops. -/
def flmAJ (a b : List Char) (pop : Char → Bool) (alo ahi blo bhi : Nat) :
    Nat × Nat × Nat :=
  let best := flmDP a b pop alo ahi blo bhi
  extRight (ahi + 1) a b ahi bhi (extLeft (best.1 + 1) a b alo blo best)

/-- Total matching-block size of `get_matching_blocks` in the autojunk
regime, by recursion over index ranges with the popularity index of the
full second string (difflib builds `b2j` once).  Recursing unconditionally
on both sides is equivalent to the source's `alo < i and blo < j` /
`i+k < ahi and j+k < bhi` guards, since a skipped side is an empty range
contributing 0.  Fuel `a.length + b.length + 1` always suffices: each
recursive call strictly decreases `(ahi - alo) + (bhi - blo)` because the
found block has `k ≥ 1` and lies inside the range. -/
def smMatchesAJ : Nat → List Char → List Char → (Char → Bool) → Nat → Nat → Nat → Nat → Nat
  | 0, _, _, _, _, _, _, _ => 0
  | fuel + 1, a, b, pop, alo, ahi, blo, bhi =>
      let m := flmAJ a b pop alo ahi blo bhi
      if m.2.2 = 0 then 0
      else
        smMatchesAJ fuel a b pop alo m.1 blo m.2.1 + m.2.2 +
          smMatchesAJ fuel a b pop (m.1 + m.2.2) ahi (m.2.1 + m.2.2) bhi

/-- Total matching-block size of `SequenceMatcher(None, a, b)`: below the
autojunk threshold (`len(b) < 200`) no junk of any kind exists and
`find_longest_match` meets its documented earliest-maximal-block contract,
implemented by `smMatches`; at or above it, the popularity purge is active
and the operational model `smMatchesAJ` applies. -/
def smMatchesTotal (a b : List Char) : Nat :=
  if b.length < 200 then smMatches a b
  else smMatchesAJ (a.length + b.length + 1) a b (fun c => isPopularIn b c)
    0 a.length 0 b.length

/-- `SequenceMatcher.ratio()`: `2*M/T`, defined as `1.0` when both strings
are empty (`_calculate_ratio` returns `1.0` for `length == 0`). -/
def smRatio (a b : List Char) : ℚ :=
  if a.length + b.length = 0 then 1
  else (2 * (smMatchesTotal a b : ℚ)) / ((a.length : ℚ) + (b.length : ℚ))

/-- `NewsProcessor._compute_similarity` (processor.py lines 56-65): returns
`0.0` if either raw string is empty (Python truthiness `not text`), else the
`SequenceMatcher` ratio of the two normalized strings. -/
def compute_similarity (text1 text2 : String) : ℚ :=
  if text1 = "" ∨ text2 = "" then 0
  else smRatio (normalize_text text1).data (normalize_text text2).data

/-! ## Data model and configuration (src/config.py) -/

/-- The four scores stored under `article['scores']`
(processor.py lines 254-259). -/
structure ScoreSet where
  virality : ℚ
  impact : ℚ
  controversy : ℚ
  final : ℚ
deriving DecidableEq, Repr

/-- `RANKING_WEIGHTS` shape (config.py lines 130-134).  The engine reads the
weights from this global mapping; theorems parametrize over it to express
claims about alternative configurations. -/
structure RankingWeights where
  virality : ℚ
  impact : ℚ
  controversy : ℚ
deriving DecidableEq, Repr

/-- `RANKING_WEIGHTS` (config.py lines 130-134). -/
def RANKING_WEIGHTS : RankingWeights :=
  { virality := 0.5, impact := 0.35, controversy := 0.15 }

/-- `IMPACT_CRITERIA` (config.py lines 137-178): ordered mapping from
criterion name to keyword list and score (dicts preserve insertion order). -/
def IMPACT_CRITERIA : List (String × List String × ℚ) :=
  [ ("funding_round", (["funding", "raise", "investment", "series", "venture", "capital", "round"], 20)),
    ("acquisition", (["acquire", "acquisition", "merger", "buyout", "takeover", "purchase"], 25)),
    ("layoffs", (["layoff", "firing", "job cuts", "restructuring", "downsizing", "redundancy"], 15)),
    ("policy", (["regulation", "policy", "government", "legal", "law", "compliance"], 20)),
    ("product_launch", (["launch", "release", "announce", "new product", "beta", "preview"], 10)),
    ("security", (["hack", "breach", "security", "cyber", "vulnerability", "attack"], 15)),
    ("india_macro", (["india", "indian", "delhi", "mumbai", "bangalore", "hyderabad", "chennai"], 10)),
    ("ai_ml", (["ai", "artificial intelligence", "machine learning", "ml", "neural", "gpt"], 15)),
    ("crypto", (["crypto", "bitcoin", "blockchain", "nft", "defi", "ethereum"], 12)),
    ("ipo", (["ipo", "initial public offering", "public listing", "stock market"], 18)) ]

/-- Controversy indicator keywords (processor.py lines 212-215). -/
def controversy_keywords : List String :=
  ["controversy", "debate", "dispute", "conflict", "criticism",
   "backlash", "outrage", "protest", "boycott", "lawsuit"]

/-- An article record (a Python dict).  String and numeric fields hold the
value that `article.get(key, default)` returns (absent string keys default to
`""`, absent numeric keys to `0`, absent `category` to `"global"`); the
fields that the processor itself may create are `Option`-valued, `none`
meaning the key is absent from the dict. -/
structure Article where
  title : String := ""
  url : String := ""
  text : String := ""
  source : String := ""
  category : String := "global"
  published_at : Option Nat := none
  reddit_score : ℚ := 0
  reddit_comments : ℚ := 0
  sources : Option (List String) := none
  scores : Option ScoreSet := none
  summary : Option String := none
  tags : Option (List String) := none
deriving DecidableEq, Repr

instance : Inhabited Article := ⟨{}⟩

/-! ## Generic helpers: association-list dicts, in-place store update,
stable sorts -/

/-- Insert into a string-keyed dict (Python `d[k] = v`): replace the value in
place if the key is present, else append the binding. -/
def dictInsert (m : List (String × ℚ)) (k : String) (v : ℚ) : List (String × ℚ) :=
  if m.any (fun p => p.1 == k) then
    m.map (fun p => if p.1 == k then (k, v) else p)
  else m ++ [(k, v)]

/-- Python `d.get(k, dflt)`. -/
def dictGetD (m : List (String × ℚ)) (k : String) (dflt : ℚ) : ℚ :=
  match m.find? (fun p => p.1 == k) with
  | some p => p.2
  | none => dflt

/-- Replace the element at an index by `f` of it (mutation of the record a
list position refers to); out-of-range indices leave the list unchanged. -/
def modifyIdx (f : α → α) : Nat → List α → List α
  | _, [] => []
  | 0, x :: xs => f x :: xs
  | n + 1, x :: xs => x :: modifyIdx f n xs

/-- Stable insertion for an ascending sort: `x` goes after every element
whose key is `≤` its own. -/
def insertAsc (key : α → Nat) (x : α) : List α → List α
  | [] => [x]
  | y :: ys => if key x < key y then x :: y :: ys else y :: insertAsc key x ys

/-- Stable ascending sort by a `Nat` key: the model of Python's stable
`sorted(..., key=...)`. -/
def sortAsc (key : α → Nat) (l : List α) : List α :=
  l.foldl (fun acc x => insertAsc key x acc) []

/-- Stable insertion for a descending sort: `x` goes after every element
whose key is `≥` its own. -/
def insertDesc (key : α → ℚ) (x : α) : List α → List α
  | [] => [x]
  | y :: ys => if key y < key x then x :: y :: ys else y :: insertDesc key x ys

/-- Stable descending sort by a `ℚ` key: the model of Python's stable
`sorted(..., key=..., reverse=True)` (processor.py line 268). -/
def sortDesc (key : α → ℚ) (l : List α) : List α :=
  l.foldl (fun acc x => insertDesc key x acc) []

/-! ## Scorers (processor.py lines 155-224) -/

/-- `engagement = reddit_score + reddit_comments * 0.1`
(processor.py lines 181-185). -/
def engagement_of (a : Article) : ℚ :=
  a.reddit_score + a.reddit_comments * 0.1

/-- `NewsProcessor.calculate_impact_score` (processor.py lines 155-170):
for each criterion whose keyword list has a member occurring as a substring
of `title.lower() + " " + text.lower()`, add that criterion's score;
cap the sum at 100. -/
def calculate_impact_score (a : Article) : ℚ :=
  let combined_text := pyLower a.title ++ " " ++ pyLower a.text
  min (IMPACT_CRITERIA.foldl
    (fun s c => if c.2.1.any (fun kw => strIn kw combined_text) then s + c.2.2 else s) 0) 100

/-- `NewsProcessor.calculate_virality_score` (processor.py lines 172-199):
returns `{}` on an empty batch; otherwise builds the url-keyed dict of
`(engagement / max_engagement) * 100`.  The division is Python float
division and raises `ZeroDivisionError` when `max_engagement` is zero
(the source's `if engagement_data` guard tests emptiness, which is already
excluded here, so its `else` branch is dead code, and
`max(engagement_data) if engagement_data else 1` always takes the `max`
branch). -/
def calculate_virality_score (articles : List Article) : Except PyErr (List (String × ℚ)) :=
  if articles = [] then .ok []
  else
    let engagement_data := articles.map engagement_of
    let max_engagement := pyMax engagement_data
    articles.foldlM (fun m a => do
      let q ← pyDiv (engagement_of a) max_engagement
      pure (dictInsert m a.url (q * 100))) []

/-- Number of distinct controversy keywords present in
`title.lower() + " " + text.lower()` (processor.py lines 217-218). -/
def controversy_count (a : Article) : Nat :=
  let combined_text := pyLower a.title ++ " " ++ pyLower a.text
  controversy_keywords.countP (fun kw => strIn kw combined_text)

/-- `NewsProcessor.calculate_controversy_score` (processor.py lines 201-224):
url-keyed dict of `min(hits * 20, 100)`. -/
def calculate_controversy_score (articles : List Article) : List (String × ℚ) :=
  articles.foldl
    (fun m a => dictInsert m a.url (min ((controversy_count a : ℚ) * 20) 100)) []

/-! ## Tagger and summarizer (processor.py lines 119-153 and 272-297) -/

/-- The content tag rules of `NewsProcessor._extract_tags`
(processor.py lines 284-295), in source order. -/
def tag_rules : List (String × List String) :=
  [ ("funding", ["funding", "raise", "investment"]),
    ("m&a", ["acquire", "acquisition", "merger"]),
    ("layoffs", ["layoff", "firing", "job cuts"]),
    ("policy", ["regulation", "policy", "government"]),
    ("product", ["launch", "release", "announce"]),
    ("security", ["hack", "breach", "security"]) ]

/-- The `tags` list of `NewsProcessor._extract_tags` as built before the
final `list(set(tags))` (processor.py lines 274-296): the category tag, then
each matching rule's tag in rule order. -/
def extract_tags_raw (a : Article) : List String :=
  let combined_text := pyLower a.title ++ " " ++ pyLower a.text
  a.category ::
    (tag_rules.filter (fun r => r.2.any (fun kw => strIn kw combined_text))).map (fun r => r.1)

/-- `NewsProcessor._extract_tags` (processor.py lines 272-297).  The final
`return list(set(tags))` enumerates a CPython `set` in an unspecified,
hash-seed-dependent order; `setOrder` stands for that enumeration.  A value
of `setOrder` is an admissible behaviour of `list(set(·))` when it returns a
duplicate-free list with the same members as its input (`SetOrderOK`). -/
def extract_tags (setOrder : List String → List String) (a : Article) : List String :=
  setOrder (extract_tags_raw a)

/-- Admissibility of a `list(set(·))` enumeration: duplicate-free output
with exactly the members of the input. -/
def SetOrderOK (setOrder : List String → List String) : Prop :=
  ∀ l, (setOrder l).Nodup ∧ ∀ x, x ∈ setOrder l ↔ x ∈ l

/-- `NewsProcessor.generate_summary` (processor.py lines 119-153).  The
keyword extraction at line 126 is computed and discarded (its result is
unused), so it is not modelled.  `summary_parts` always has exactly two
entries before the `len < 3` check, so the filler sentence is always
appended. -/
def generate_summary (a : Article) : String :=
  let titleL := pyLower a.title
  let what :=
    if ["funding", "raise", "investment"].any (fun w => strIn w titleL) then
      "A funding round was announced"
    else if ["acquire", "acquisition", "merger"].any (fun w => strIn w titleL) then
      "An acquisition or merger was announced"
    else if ["layoff", "firing", "job cuts"].any (fun w => strIn w titleL) then
      "Layoffs or job cuts were announced"
    else if ["launch", "release", "announce"].any (fun w => strIn w titleL) then
      "A new product or service was launched"
    else "A significant development was reported"
  let why :=
    if a.category = "india" then
      "This development has implications for the Indian startup ecosystem"
    else "This development has global implications for the tech industry"
  String.intercalate " "
    [what, why, "The story has attracted significant attention from the tech community"]

/-! ## Deduplicator (processor.py lines 77-117), heap-style -/

/-- The fingerprint the deduplicator computes for an article
(processor.py lines 89-93): the digest of `f"{title} {url}"`. -/
def articleFingerprint (a : Article) : String :=
  compute_fingerprint (a.title ++ " " ++ a.url)

/-- One iteration of the deduplication loop (processor.py lines 88-115) over
the state `(store, seen_fingerprints, unique_indices)`, processing the
article at index `i`.  An exact-duplicate fingerprint is skipped; else the
first already-kept canonical whose title is similar above `0.8` absorbs this
article's source (mutating that canonical in place, creating its `sources`
list from its own `source` if absent); else the article becomes a new
canonical and its fingerprint is recorded. -/
def dedupStep (s : List Article × List String × List Nat) (i : Nat) :
    List Article × List String × List Nat :=
  if articleFingerprint (s.1.getD i default) ∈ s.2.1 then s
  else
    match s.2.2.find? (fun u =>
        decide (compute_similarity (s.1.getD i default).title
          (s.1.getD u default).title > 0.8)) with
    | some u =>
        (modifyIdx (fun e =>
            { e with sources := some ((match (s.1.getD u default).sources with
                | none => [(s.1.getD u default).source]
                | some l => l) ++ [(s.1.getD i default).source]) }) u s.1,
          s.2.1, s.2.2)
    | none =>
        (s.1, s.2.1 ++ [articleFingerprint (s.1.getD i default)], s.2.2 ++ [i])

/-- `NewsProcessor.deduplicate_articles` (processor.py lines 77-117) on the
store.  The batch is first stably sorted by
`article.get('published_at', datetime.now())`; `now` models the clock value
substituted for a missing `published_at`.  Returns the post-state of the
store (merges mutate kept canonicals in place) and the indices of the kept
canonicals, in kept order. -/
def deduplicate_heap (now : Nat) (store : List Article) : List Article × List Nat :=
  if store = [] then (store, [])
  else
    let order := sortAsc
      (fun i => ((store.getD i default).published_at).getD now)
      (List.range store.length)
    let s := order.foldl dedupStep (store, [], [])
    (s.1, s.2.2)

/-- `NewsProcessor.deduplicate_articles` as the list of kept canonical
articles it returns (the references handed to the caller). -/
def deduplicate_articles (now : Nat) (articles : List Article) : List Article :=
  let s := deduplicate_heap now articles
  s.2.map (fun i => s.1.getD i default)

/-! ## Ranker (processor.py lines 226-270), heap-style -/

/-- The per-article mutation of the ranking loop (processor.py lines
236-265): store the four scores (final combined with the configured
weights), the generated summary and the extracted tags on the article. -/
def updateArticle (w : RankingWeights) (setOrder : List String → List String)
    (virality_scores controversy_scores : List (String × ℚ)) (a : Article) : Article :=
  let url := a.url
  let impact_score := calculate_impact_score a
  let virality_score := dictGetD virality_scores url 0
  let controversy_score := dictGetD controversy_scores url 0
  let final_score :=
    w.virality * virality_score + w.impact * impact_score + w.controversy * controversy_score
  { a with
      scores := some
        { virality := virality_score, impact := impact_score,
          controversy := controversy_score, final := final_score },
      summary := some (generate_summary a),
      tags := some (extract_tags setOrder a) }

/-- The sort key `x['scores']['final']` (processor.py line 268); after the
ranking loop every ranked article has its `scores` key set, so the `none`
default is unreachable there. -/
def finalScoreOf (a : Article) : ℚ :=
  match a.scores with
  | some s => s.final
  | none => 0

/-- `NewsProcessor.rank_articles` (processor.py lines 226-270) on the store:
`idxs` are the indices of the batch handed to it (the deduplicator's
output).  Computes the batch-level virality and controversy dicts, mutates
every article in place with its scores, summary and tags, and returns the
post-state of the store together with the indices sorted by final score
descending (stable). -/
def rank_heap (w : RankingWeights) (setOrder : List String → List String)
    (store : List Article) (idxs : List Nat) :
    Except PyErr (List Article × List Nat) :=
  if idxs = [] then .ok (store, [])
  else do
    let articles := idxs.map (fun i => store.getD i default)
    let virality_scores ← calculate_virality_score articles
    let controversy_scores := calculate_controversy_score articles
    let store1 := idxs.foldl
      (fun st i => modifyIdx (updateArticle w setOrder virality_scores controversy_scores) i st)
      store
    .ok (store1, sortDesc (fun i => finalScoreOf (store1.getD i default)) idxs)

/-- `NewsProcessor.rank_articles` as the ranked article list it returns. -/
def rank_articles (w : RankingWeights) (setOrder : List String → List String)
    (articles : List Article) : Except PyErr (List Article) := do
  let s ← rank_heap w setOrder articles (List.range articles.length)
  .ok (s.2.map (fun i => s.1.getD i default))

/-- `NewsProcessor.process_articles` (processor.py lines 299-311):
deduplicate, then rank. -/
def process_articles (w : RankingWeights) (setOrder : List String → List String)
    (now : Nat) (articles : List Article) : Except PyErr (List Article) := do
  let d := deduplicate_heap now articles
  let s ← rank_heap w setOrder d.1 d.2
  .ok (s.2.map (fun i => s.1.getD i default))

/-- `NewsProcessor.__init__` (processor.py lines 32-38): the constructor
only initializes the stop-word set and the (never otherwise used) TF-IDF
vectorizer.  It contains no code that reads `RANKING_WEIGHTS`, so no
configuration check can fail there: modelled as a constructor that ignores
the configured weights and always succeeds. -/
def NewsProcessor.init (_w : RankingWeights) : Except String Unit :=
  .ok ()

/-! ## Views used to state frame conditions and determinism -/

/-- An article with its `sources` key removed: the view of everything the
deduplicator is not supposed to touch. -/
def eraseSources (a : Article) : Article :=
  { a with sources := none }

/-- An article with the keys the ranking loop writes (`scores`, `summary`,
`tags`) removed: the view of everything the ranker is not supposed to
touch. -/
def eraseDerived (a : Article) : Article :=
  { a with scores := none, summary := none, tags := none }

/-- An article with its `tags` key removed: the view of the pipeline output
that does not depend on the `list(set(·))` enumeration order. -/
def eraseTags (a : Article) : Article :=
  { a with tags := none }

/-- Duplicate removal keeping the first occurrence (insertion order). -/
def dedupKeepFirst : List String → List String
  | [] => []
  | x :: xs => x :: (dedupKeepFirst xs).filter (fun y => y ≠ x)

/-- Modelled from the spec: "Result is a set (no duplicate tags); serialize
in the fixed rule-definition order for determinism, category first."  The
category tag followed by the matching rule tags in rule-definition order,
duplicates removed keeping the first occurrence.  This is the serialization
the claim asserts; the source's `list(set(tags))` is compared against it. -/
def spec_tag_serialization (a : Article) : List String :=
  dedupKeepFirst (extract_tags_raw a)

def bangaloreArticle : Article := { title := "Startup raises $5M Series A in Bangalore" }

def rankE1 : Article := { title := "zzz", url := "u1", source := "s1", reddit_score := 84 }

def rankE2 : Article :=
  { title := "funding merger layoff policy launch debate dispute", url := "u2",
    source := "s2", reddit_score := 100 }

def rankE3 : Article :=
  { title := "funding merger layoff policy launch debate dispute", url := "u3",
    source := "s3", reddit_score := 100 }

def c4A : Article := { title := "alpha zzzz", url := "ua", source := "sa", published_at := some 1 }

def c4B : Article := { title := "alpha zzzy", url := "ub", source := "sb", published_at := some 2 }

def c4C : Article := { title := "alpha zzzy", url := "ub", source := "sc", published_at := some 3 }

def punctA : Article := { title := "!!!", url := "ua", source := "sa", published_at := some 1 }

def punctB : Article := { title := "???", url := "ub", source := "sb", published_at := some 2 }

def wA : Article := { title := "zzz", url := "u", source := "s", reddit_score := 1 }

def wOut (so : List String → List String) : Article :=
  { wA with
      scores := some { virality := 100, impact := 0, controversy := 0, final := 50 },
      summary := some (generate_summary wA),
      tags := some (so (extract_tags_raw wA)) }

def negA1 : Article := { title := "aaa", url := "u1", source := "s1", reddit_score := -10 }

def negA2 : Article := { title := "bbb", url := "u2", source := "s2", reddit_score := -1 }

/-- Well-formedness of a canonical's `sources` key: when present, it is the
canonical's own source followed by the sources merged into it. -/
def SourcesShape (a : Article) : Prop :=
  ∀ l, a.sources = some l → ∃ tl, l = a.source :: tl

/-- Invariant of the deduplication fold over the state
`(store, seen_fingerprints, unique_indices)`, relative to the store `store0`
the fold started from.  Since merges only ever write the `sources` key, the
fingerprints and titles of the kept canonicals can be read off `store0`. -/
def DedupInv (store0 : List Article) (s : List Article × List String × List Nat) : Prop :=
  s.1.length = store0.length ∧
  (∀ j, eraseSources (s.1.getD j default) = eraseSources (store0.getD j default)) ∧
  s.2.1 = s.2.2.map (fun u => articleFingerprint (store0.getD u default)) ∧
  s.2.1.Nodup ∧
  s.2.2.Pairwise (fun u1 u2 =>
    compute_similarity ((store0.getD u2 default).title) ((store0.getD u1 default).title) ≤ 0.8) ∧
  ((∀ j, SourcesShape (store0.getD j default)) → ∀ j, SourcesShape (s.1.getD j default))

/-- The article of C6's counterexample: category `global`, one matching
content rule (`funding`). -/
def tagArticle : Article := { title := "funding news", url := "u", category := "global" }

/-- A discard step input for C4's witness: one kept canonical whose
fingerprint is already recorded. -/
def discardState : List Article × List String × List Nat :=
  ([c4A], [articleFingerprint c4A], [0])

/-! ## General lemmas -/

theorem foldl_fixed {f : σ → α → σ} {s : σ} :
    ∀ {l : List α}, (∀ a ∈ l, f s a = s) → l.foldl f s = s := by
  intro l
  induction l with
  | nil => intro _; rfl
  | cons x xs ih =>
      intro h
      have hx : f s x = s := h x (List.mem_cons_self x xs)
      simpa [List.foldl_cons, hx] using ih (fun a ha => h a (List.mem_cons_of_mem x ha))

theorem foldl_inv {f : σ → α → σ} {P : σ → Prop} (hstep : ∀ s a, P s → P (f s a)) :
    ∀ (l : List α) (s : σ), P s → P (l.foldl f s) := by
  intro l
  induction l with
  | nil => intro s hs; exact hs
  | cons x xs ih => intro s hs; exact ih (f s x) (hstep s x hs)

theorem matchLen_self : ∀ l : List Char, matchLen l l = l.length := by
  intro l
  induction l with
  | nil => rfl
  | cons c cs ih => simp [matchLen, ih]

theorem matchLen_le_left : ∀ a b : List Char, matchLen a b ≤ a.length := by
  intro a
  induction a with
  | nil => intro b; cases b <;> simp [matchLen]
  | cons c cs ih =>
      intro b
      cases b with
      | nil => simp [matchLen]
      | cons d ds =>
          by_cases h : c = d
          · simpa [matchLen, h] using ih ds
          · simp [matchLen, h]

theorem flmInner_keep (s : List Char) (i : Nat) (jl : List Nat) :
    jl.foldl (fun acc2 j =>
      if matchLen (s.drop i) (s.drop j) > matchLen (s.drop acc2.1) (s.drop acc2.2)
      then (i, j) else acc2) (0, 0) = (0, 0) := by
  refine foldl_fixed (fun j _ => if_neg ?_)
  have h1 : matchLen (s.drop i) (s.drop j) <= (s.drop i).length := matchLen_le_left _ _
  have h2 : (s.drop i).length <= s.length := by simp [List.length_drop]
  have h3 : matchLen (s.drop (0,0).1) (s.drop (0,0).2) = s.length := by
    simp [List.drop_zero, matchLen_self]
  omega

theorem flmInner_first (s : List Char) (init : Nat × Nat)
    (h : matchLen (s.drop init.1) (s.drop init.2) < s.length) (jl : List Nat) :
    (0 :: jl).foldl (fun acc2 j =>
      if matchLen (s.drop 0) (s.drop j) > matchLen (s.drop acc2.1) (s.drop acc2.2)
      then (0, j) else acc2) init = (0, 0) := by
  rw [List.foldl_cons]
  have hcond : matchLen (s.drop 0) (s.drop 0) > matchLen (s.drop init.1) (s.drop init.2) := by
    have h3 : matchLen (s.drop 0) (s.drop 0) = s.length := by
      simp [List.drop_zero, matchLen_self]
    omega
  rw [if_pos hcond]
  exact flmInner_keep s 0 jl

theorem flmBest_self (s : List Char) (hs : s ≠ []) : flmBest s s = (0, 0) := by
  obtain ⟨n, hn⟩ : ∃ n, s.length = n + 1 := by
    cases s with
    | nil => exact absurd rfl hs
    | cons c cs => exact ⟨cs.length, rfl⟩
  rw [flmBest]
  have hrange : List.range s.length = 0 :: List.map Nat.succ (List.range n) := by
    rw [hn, List.range_succ_eq_map]
  rw [hrange, List.foldl_cons]
  have hfirst : (0 :: List.map Nat.succ (List.range n)).foldl (fun acc2 j =>
      if matchLen (s.drop 0) (s.drop j) > matchLen (s.drop acc2.1) (s.drop acc2.2)
      then (0, j) else acc2) (s.length, s.length) = (0, 0) := by
    refine flmInner_first s (s.length, s.length) ?_ _
    show matchLen (s.drop s.length) (s.drop s.length) < s.length
    have : matchLen (s.drop s.length) (s.drop s.length) = 0 := by
      simp [List.drop_length, matchLen]
    omega
  rw [hfirst]
  refine foldl_fixed (fun i _ => ?_)
  exact flmInner_keep s i _

theorem smMatchesF_nil (fuel : Nat) : smMatchesF fuel [] [] = 0 := by
  cases fuel with
  | zero => rfl
  | succ m => simp [smMatchesF, flmBest, matchLen]

theorem smMatchesF_self (s : List Char) (fuel : Nat) (hf : fuel ≠ 0) :
    smMatchesF fuel s s = s.length := by
  obtain ⟨m, rfl⟩ : ∃ m, fuel = m + 1 := by
    cases fuel with
    | zero => exact absurd rfl hf
    | succ m => exact ⟨m, rfl⟩
  cases hsn : s with
  | nil => rw [← hsn]; rw [hsn]; exact smMatchesF_nil (m + 1)
  | cons c cs =>
      rw [← hsn]
      have hs : s ≠ [] := by rw [hsn]; exact List.cons_ne_nil _ _
      rw [smMatchesF]
      simp only [flmBest_self s hs, List.drop_zero]
      have hk : matchLen s s = s.length := matchLen_self s
      have hkne : ¬ (matchLen s s = 0) := by rw [hk, hsn]; simp
      rw [if_neg hkne]
      rw [List.take_zero, Nat.zero_add, hk, List.drop_length, smMatchesF_nil]
      omega

theorem smMatches_self (s : List Char) : smMatches s s = s.length := by
  rw [smMatches]
  exact smMatchesF_self s _ (by omega)

theorem smRatio_self (l : List Char) (h200 : l.length < 200) : smRatio l l = 1 := by
  by_cases hl : l.length = 0
  · simp [smRatio, hl]
  · rw [smRatio, if_neg (by omega), smMatchesTotal, if_pos h200, smMatches_self]
    have h : ((l.length : ℚ)) ≠ 0 := by exact_mod_cast hl
    field_simp
    ring

theorem compute_similarity_self (a : String) (ha : a ≠ "")
    (h200 : (normalize_text a).length < 200) : compute_similarity a a = 1 := by
  rw [compute_similarity, if_neg (by simp [ha])]
  exact smRatio_self _ h200

theorem compute_similarity_empty (a b : String) (h : a = "" ∨ b = "") :
    compute_similarity a b = 0 := by
  rw [compute_similarity, if_pos h]

/-! ### `modifyIdx` lemmas -/

theorem length_modifyIdx (f : α → α) : ∀ (i : Nat) (l : List α),
    (modifyIdx f i l).length = l.length := by
  intro i
  induction i with
  | zero => intro l; cases l <;> simp [modifyIdx]
  | succ n ih => intro l; cases l <;> simp [modifyIdx, ih]

theorem getD_modifyIdx_ne (f : α → α) (d : α) :
    ∀ (i j : Nat) (l : List α), j ≠ i → (modifyIdx f i l).getD j d = l.getD j d := by
  intro i
  induction i with
  | zero =>
      intro j l hj
      cases l with
      | nil => rfl
      | cons x xs =>
          obtain ⟨m, rfl⟩ : ∃ m, j = m + 1 := by
            cases j with
            | zero => exact absurd rfl hj
            | succ m => exact ⟨m, rfl⟩
          simp [modifyIdx, List.getD_cons_succ]
  | succ n ih =>
      intro j l hj
      cases l with
      | nil => rfl
      | cons x xs =>
          cases j with
          | zero => simp [modifyIdx, List.getD_cons_zero]
          | succ m =>
              simp only [modifyIdx, List.getD_cons_succ]
              exact ih m xs (by omega)

theorem getD_modifyIdx_self (f : α → α) (d : α) :
    ∀ (i : Nat) (l : List α), i < l.length → (modifyIdx f i l).getD i d = f (l.getD i d) := by
  intro i
  induction i with
  | zero =>
      intro l hl
      cases l with
      | nil => simp at hl
      | cons x xs => simp [modifyIdx, List.getD_cons_zero]
  | succ n ih =>
      intro l hl
      cases l with
      | nil => simp at hl
      | cons x xs =>
          simp only [modifyIdx, List.getD_cons_succ]
          exact ih xs (by simpa using hl)

theorem modifyIdx_oob (f : α → α) :
    ∀ (i : Nat) (l : List α), l.length ≤ i → modifyIdx f i l = l := by
  intro i
  induction i with
  | zero =>
      intro l hl
      cases l with
      | nil => rfl
      | cons x xs => simp at hl
  | succ n ih =>
      intro l hl
      cases l with
      | nil => rfl
      | cons x xs => simp [modifyIdx, ih xs (by simpa using hl)]

theorem getD_modifyIdx_congr (f : α → α) (g : α → β) (d : α)
    (hg : ∀ x, g (f x) = g x) (i j : Nat) (l : List α) :
    g ((modifyIdx f i l).getD j d) = g (l.getD j d) := by
  by_cases hji : j = i
  · subst hji
    by_cases hlen : j < l.length
    · rw [getD_modifyIdx_self f d j l hlen, hg]
    · rw [modifyIdx_oob f j l (by omega)]
  · rw [getD_modifyIdx_ne f d i j l hji]

/-! ### Stable sort lemmas -/

theorem insertDesc_perm (key : α → ℚ) (x : α) :
    ∀ l : List α, (insertDesc key x l).Perm (x :: l) := by
  intro l
  induction l with
  | nil => exact List.Perm.refl _
  | cons y ys ih =>
      rw [insertDesc]
      by_cases h : key y < key x
      · rw [if_pos h]
      · rw [if_neg h]
        exact (ih.cons y).trans (List.Perm.swap x y ys)

theorem sortDesc_perm_aux (key : α → ℚ) :
    ∀ (l acc : List α), (l.foldl (fun acc x => insertDesc key x acc) acc).Perm (acc ++ l) := by
  intro l
  induction l with
  | nil => intro acc; simp
  | cons x xs ih =>
      intro acc
      rw [List.foldl_cons]
      refine (ih (insertDesc key x acc)).trans ?_
      refine (List.Perm.append_right xs (insertDesc_perm key x acc)).trans ?_
      rw [List.cons_append]
      exact List.perm_middle.symm

theorem sortDesc_perm (key : α → ℚ) (l : List α) : (sortDesc key l).Perm l := by
  simpa using sortDesc_perm_aux key l []

theorem mem_sortDesc (key : α → ℚ) (l : List α) (x : α) :
    x ∈ sortDesc key l ↔ x ∈ l :=
  (sortDesc_perm key l).mem_iff

theorem mem_insertDesc (key : α → ℚ) (x y : α) (l : List α) :
    y ∈ insertDesc key x l ↔ y = x ∨ y ∈ l := by
  rw [(insertDesc_perm key x l).mem_iff, List.mem_cons]

theorem insertDesc_stable (key : α → ℚ) (tag : α → Nat) (x : α) :
    ∀ l : List α,
      l.Pairwise (fun a b => key b < key a ∨ (key b = key a ∧ tag a < tag b)) →
      (∀ y ∈ l, tag y < tag x) →
      (insertDesc key x l).Pairwise
        (fun a b => key b < key a ∨ (key b = key a ∧ tag a < tag b)) := by
  intro l
  induction l with
  | nil => intro _ _; simp [insertDesc]
  | cons y ys ih =>
      intro hp htag
      rw [List.pairwise_cons] at hp
      rw [insertDesc]
      by_cases h : key y < key x
      · rw [if_pos h]
        refine List.Pairwise.cons ?_ (List.Pairwise.cons hp.1 hp.2)
        intro z hz
        rcases List.mem_cons.mp hz with rfl | hz2
        · exact Or.inl h
        · rcases hp.1 z hz2 with hlt | ⟨heq, _⟩
          · exact Or.inl (lt_trans hlt h)
          · exact Or.inl (by rw [heq]; exact h)
      · rw [if_neg h]
        refine List.Pairwise.cons ?_ (ih hp.2 (fun z hz => htag z (List.mem_cons_of_mem y hz)))
        intro z hz
        rcases (mem_insertDesc key x z ys).mp hz with rfl | hz2
        · rcases lt_or_eq_of_le (le_of_not_lt h) with hlt | heq
          · exact Or.inl hlt
          · exact Or.inr ⟨heq, htag y (List.mem_cons_self y ys)⟩
        · exact hp.1 z hz2

theorem sortDesc_stable_aux (key : α → ℚ) (tag : α → Nat) :
    ∀ (l acc : List α),
      acc.Pairwise (fun a b => key b < key a ∨ (key b = key a ∧ tag a < tag b)) →
      (∀ y ∈ acc, ∀ p ∈ l, tag y < tag p) →
      (l.map tag).Pairwise (· < ·) →
      (l.foldl (fun acc x => insertDesc key x acc) acc).Pairwise
        (fun a b => key b < key a ∨ (key b = key a ∧ tag a < tag b)) := by
  intro l
  induction l with
  | nil => intro acc hacc _ _; exact hacc
  | cons x xs ih =>
      intro acc hacc hsplit hl
      rw [List.map_cons, List.pairwise_cons] at hl
      rw [List.foldl_cons]
      refine ih (insertDesc key x acc) ?_ ?_ hl.2
      · exact insertDesc_stable key tag x acc hacc
          (fun y hy => hsplit y hy x (List.mem_cons_self x xs))
      · intro y hy p hp
        rcases (mem_insertDesc key x y acc).mp hy with rfl | hy2
        · exact hl.1 (tag p) (List.mem_map_of_mem tag hp)
        · exact hsplit y hy2 p (List.mem_cons_of_mem x hp)

/-- Stability and sortedness of the ranking sort: on a list whose `tag`
values (pre-sort positions) are strictly increasing, the sorted output is
pairwise "higher key first, ties in tag order". -/
theorem sortDesc_stable (key : α → ℚ) (tag : α → Nat) (l : List α)
    (hl : (l.map tag).Pairwise (· < ·)) :
    (sortDesc key l).Pairwise
      (fun a b => key b < key a ∨ (key b = key a ∧ tag a < tag b)) := by
  rw [sortDesc]
  exact sortDesc_stable_aux key tag l [] (by simp) (by simp) hl

/-! ### Dict and score-bound lemmas -/

theorem mem_dictInsert (m : List (String × ℚ)) (k : String) (v : ℚ) (p : String × ℚ) :
    p ∈ dictInsert m k v → p ∈ m ∨ p.2 = v := by
  intro hp
  rw [dictInsert] at hp
  by_cases h : m.any (fun q => q.1 == k)
  · rw [if_pos h] at hp
    rcases List.mem_map.mp hp with ⟨q, hq, hqp⟩
    by_cases hk : q.1 == k
    · rw [if_pos hk] at hqp
      exact Or.inr (by rw [← hqp])
    · rw [if_neg hk] at hqp
      exact Or.inl (hqp ▸ hq)
  · rw [if_neg h] at hp
    rcases List.mem_append.mp hp with hp1 | hp2
    · exact Or.inl hp1
    · exact Or.inr (by rcases List.mem_singleton.mp hp2 with rfl; rfl)

theorem dictGetD_bound (m : List (String × ℚ)) (k : String) (dflt : ℚ) (P : ℚ → Prop)
    (hm : ∀ p ∈ m, P p.2) (hd : P dflt) : P (dictGetD m k dflt) := by
  rw [dictGetD]
  cases hf : m.find? (fun p => p.1 == k) with
  | none => exact hd
  | some p => exact hm p (List.mem_of_find?_eq_some hf)

theorem le_pyMax : ∀ (l : List ℚ) (x : ℚ), x ∈ l → x ≤ pyMax l := by
  have haux : ∀ (l : List ℚ) (a : ℚ), a ≤ l.foldl max a ∧ ∀ x ∈ l, x ≤ l.foldl max a := by
    intro l
    induction l with
    | nil => intro a; exact ⟨le_refl a, by simp⟩
    | cons y ys ih =>
        intro a
        rw [List.foldl_cons]
        constructor
        · exact le_trans (le_max_left a y) (ih (max a y)).1
        · intro x hx
          rcases List.mem_cons.mp hx with rfl | hx2
          · exact le_trans (le_max_right a x) (ih (max a x)).1
          · exact (ih (max a y)).2 x hx2
  intro l x hx
  cases l with
  | nil => simp at hx
  | cons y ys =>
      rw [pyMax]
      rcases List.mem_cons.mp hx with rfl | hx2
      · exact (haux ys x).1
      · exact (haux ys y).2 x hx2

theorem impact_nonneg (a : Article) : 0 ≤ calculate_impact_score a := by
  rw [calculate_impact_score]
  have h : ∀ (cs : List (String × List String × ℚ)) (s : ℚ),
      (∀ c ∈ cs, 0 ≤ c.2.2) → 0 ≤ s →
      0 ≤ cs.foldl (fun s c =>
        if c.2.1.any (fun kw => strIn kw (pyLower a.title ++ " " ++ pyLower a.text))
        then s + c.2.2 else s) s := by
    intro cs
    induction cs with
    | nil => intro s _ hs; exact hs
    | cons c cs ih =>
        intro s hc hs
        rw [List.foldl_cons]
        refine ih _ (fun c2 hc2 => hc c2 (List.mem_cons_of_mem c hc2)) ?_
        by_cases hif : c.2.1.any (fun kw => strIn kw (pyLower a.title ++ " " ++ pyLower a.text))
        · rw [if_pos hif]
          have := hc c (List.mem_cons_self c cs)
          linarith
        · rwa [if_neg hif]
  refine le_min ?_ (by norm_num)
  refine h IMPACT_CRITERIA 0 ?_ (le_refl 0)
  intro c hc
  fin_cases hc <;> norm_num

theorem impact_le_100 (a : Article) : calculate_impact_score a ≤ 100 := by
  rw [calculate_impact_score]
  exact min_le_right _ _

theorem controversy_value_bounds (a : Article) :
    0 ≤ min ((controversy_count a : ℚ) * 20) 100 ∧
      min ((controversy_count a : ℚ) * 20) 100 ≤ 100 := by
  constructor
  · refine le_min ?_ (by norm_num)
    positivity
  · exact min_le_right _ _

theorem controversy_dict_bounds (articles : List Article) :
    ∀ p ∈ calculate_controversy_score articles, 0 ≤ p.2 ∧ p.2 ≤ 100 := by
  rw [calculate_controversy_score]
  have h : ∀ (l : List Article) (m : List (String × ℚ)),
      (∀ p ∈ m, 0 ≤ p.2 ∧ p.2 ≤ 100) →
      ∀ p ∈ l.foldl (fun m a =>
        dictInsert m a.url (min ((controversy_count a : ℚ) * 20) 100)) m,
        0 ≤ p.2 ∧ p.2 ≤ 100 := by
    intro l
    induction l with
    | nil => intro m hm; exact hm
    | cons a l ih =>
        intro m hm
        rw [List.foldl_cons]
        refine ih _ ?_
        intro p hp
        rcases mem_dictInsert _ _ _ p hp with hp1 | hp2
        · exact hm p hp1
        · rw [hp2]
          exact controversy_value_bounds a
  exact h articles [] (by simp)

theorem virality_fold_bounds (maxE : ℚ) (hmax : 0 < maxE) :
    ∀ (l : List Article) (m0 m : List (String × ℚ)),
      (l.foldlM (fun m a => do
        let q ← pyDiv (engagement_of a) maxE
        pure (dictInsert m a.url (q * 100))) m0) = Except.ok m →
      (∀ a ∈ l, 0 ≤ engagement_of a ∧ engagement_of a ≤ maxE) →
      (∀ p ∈ m0, 0 ≤ p.2 ∧ p.2 ≤ 100) →
      ∀ p ∈ m, 0 ≤ p.2 ∧ p.2 ≤ 100 := by
  intro l
  induction l with
  | nil =>
      intro m0 m hok _ hm0
      simp only [List.foldlM_nil] at hok
      cases hok
      exact hm0
  | cons a l ih =>
      intro m0 m hok hl hm0
      have ha := hl a (List.mem_cons_self a l)
      rw [List.foldlM_cons, pyDiv, if_neg (by linarith)] at hok
      have hok2 : l.foldlM (fun m a => do
          let q ← pyDiv (engagement_of a) maxE
          pure (dictInsert m a.url (q * 100)))
          (dictInsert m0 a.url (engagement_of a / maxE * 100)) = Except.ok m := hok
      refine ih _ m hok2 (fun b hb => hl b (List.mem_cons_of_mem a hb)) ?_
      intro p hp
      rcases mem_dictInsert _ _ _ p hp with hp1 | hp2
      · exact hm0 p hp1
      · rw [hp2]
        constructor
        · have hdiv : 0 ≤ engagement_of a / maxE := div_nonneg ha.1 (le_of_lt hmax)
          linarith
        · have hdiv : engagement_of a / maxE ≤ 1 := by
            rw [div_le_one hmax]
            exact ha.2
          linarith

theorem virality_bounds (articles : List Article) (m : List (String × ℚ))
    (hok : calculate_virality_score articles = Except.ok m)
    (h0 : ∀ a ∈ articles, 0 ≤ engagement_of a)
    (hpos : ∃ a ∈ articles, 0 < engagement_of a) :
    ∀ p ∈ m, 0 ≤ p.2 ∧ p.2 ≤ 100 := by
  obtain ⟨a0, ha0, ha0pos⟩ := hpos
  have hne : articles ≠ [] := by
    intro h
    rw [h] at ha0
    simp at ha0
  rw [calculate_virality_score, if_neg hne] at hok
  have hmax : 0 < pyMax (articles.map engagement_of) := by
    have := le_pyMax (articles.map engagement_of) (engagement_of a0)
      (List.mem_map_of_mem engagement_of ha0)
    linarith
  refine virality_fold_bounds _ hmax articles [] m hok ?_ (by simp)
  intro a ha
  exact ⟨h0 a ha, le_pyMax _ _ (List.mem_map_of_mem engagement_of ha)⟩

/-! ### Ranking-loop store lemmas -/

theorem foldl_modify_length (f : α → α) :
    ∀ (idxs : List Nat) (store : List α),
      (idxs.foldl (fun st j => modifyIdx f j st) store).length = store.length := by
  intro idxs
  induction idxs with
  | nil => intro store; rfl
  | cons i idxs ih =>
      intro store
      rw [List.foldl_cons, ih, length_modifyIdx]

theorem foldl_modify_getD_notmem (f : α → α) (d : α) :
    ∀ (idxs : List Nat) (store : List α) (i : Nat), i ∉ idxs →
      (idxs.foldl (fun st j => modifyIdx f j st) store).getD i d = store.getD i d := by
  intro idxs
  induction idxs with
  | nil => intro store i _; rfl
  | cons j idxs ih =>
      intro store i hi
      rw [List.foldl_cons, ih _ i (fun h => hi (List.mem_cons_of_mem j h)),
        getD_modifyIdx_ne f d j i store (fun h => hi (h ▸ List.mem_cons_self j idxs))]

theorem foldl_modify_getD_mem (f : α → α) (d : α) :
    ∀ (idxs : List Nat) (store : List α) (i : Nat), idxs.Nodup → i ∈ idxs →
      i < store.length →
      (idxs.foldl (fun st j => modifyIdx f j st) store).getD i d = f (store.getD i d) := by
  intro idxs
  induction idxs with
  | nil => intro store i _ hi; simp at hi
  | cons j idxs ih =>
      intro store i hnd hi hlen
      rw [List.nodup_cons] at hnd
      rw [List.foldl_cons]
      rcases List.mem_cons.mp hi with rfl | hi2
      · rw [foldl_modify_getD_notmem f d idxs _ i hnd.1,
          getD_modifyIdx_self f d i store hlen]
      · have hij : i ≠ j := fun h => hnd.1 (h ▸ hi2)
        rw [ih _ i hnd.2 hi2 (by rwa [length_modifyIdx]),
          getD_modifyIdx_ne f d j i store hij]

theorem foldl_modify_getD_congr (f : α → α) (g : α → β) (d : α)
    (hg : ∀ x, g (f x) = g x) (idxs : List Nat) (store : List α) (j : Nat) :
    g ((idxs.foldl (fun st i => modifyIdx f i st) store).getD j d) = g (store.getD j d) := by
  refine foldl_inv (P := fun st => g (st.getD j d) = g (store.getD j d)) ?_ idxs store rfl
  intro st i hst
  rw [getD_modifyIdx_congr f g d hg i j st, hst]

theorem exceptOk_bind {ε α β : Type} (x : α) (f : α → Except ε β) :
    (Except.ok x >>= f : Except ε β) = f x := rfl

theorem exceptErr_bind {ε α β : Type} (e : ε) (f : α → Except ε β) :
    (Except.error e >>= f : Except ε β) = Except.error e := rfl

theorem exceptMap_ok {ε α β : Type} (g : α → β) (x : α) :
    Except.map g (Except.ok x : Except ε α) = Except.ok (g x) := rfl

theorem exceptMap_error {ε α β : Type} (g : α → β) (e : ε) :
    Except.map g (Except.error e : Except ε α) = Except.error e := rfl

theorem impact_bangalore_eval : calculate_impact_score bangaloreArticle = 45 := by
  have hc : pyLower bangaloreArticle.title ++ " " ++ pyLower bangaloreArticle.text =
      "startup raises $5m series a in bangalore " := by decide
  rw [calculate_impact_score]
  rw [hc]
  norm_num +decide [IMPACT_CRITERIA, List.foldl_cons, List.foldl_nil]

theorem virality_zero_run : calculate_virality_score [({ url := "u" } : Article)] =
    Except.error PyErr.zeroDivision := by
  rw [calculate_virality_score, if_neg (by simp)]
  have he : engagement_of ({ url := "u" } : Article) = 0 := by
    norm_num [engagement_of]
  simp [List.foldlM_cons, he, pyDiv, pyMax]

theorem rank3_urls (so : List String → List String) :
    (rank_articles RANKING_WEIGHTS so [rankE1, rankE2, rankE3]).map
      (fun l => l.map (fun a => a.url)) = Except.ok ["u2", "u3", "u1"] := by
  have hr : List.range ([rankE1, rankE2, rankE3] : List Article).length = [0, 1, 2] := by decide
  have hvir : calculate_virality_score [rankE1, rankE2, rankE3] =
      Except.ok [("u1", 84), ("u2", 100), ("u3", 100)] := by
    norm_num +decide [calculate_virality_score, engagement_of, rankE1, rankE2, rankE3,
      pyMax, pyDiv, List.foldlM_cons, List.foldlM_nil, dictInsert, max_def]
  have hcon : calculate_controversy_score [rankE1, rankE2, rankE3] =
      [("u1", 0), ("u2", 40), ("u3", 40)] := by
    have h1 : controversy_count rankE1 = 0 := by decide
    have h2 : controversy_count rankE2 = 2 := by decide
    have h3 : controversy_count rankE3 = 2 := by decide
    norm_num +decide [calculate_controversy_score, h1, h2, h3, List.foldl_cons,
      List.foldl_nil, dictInsert, min_def]
  have himp1 : calculate_impact_score rankE1 = 0 := by
    have hc : pyLower rankE1.title ++ " " ++ pyLower rankE1.text = "zzz " := by decide
    rw [calculate_impact_score, hc]
    norm_num +decide [IMPACT_CRITERIA, List.foldl_cons, List.foldl_nil]
  have himp2 : calculate_impact_score rankE2 = 90 := by
    have hc : pyLower rankE2.title ++ " " ++ pyLower rankE2.text =
        "funding merger layoff policy launch debate dispute " := by decide
    rw [calculate_impact_score, hc]
    norm_num +decide [IMPACT_CRITERIA, List.foldl_cons, List.foldl_nil]
  have himp3 : calculate_impact_score rankE3 = 90 := by
    have hc : pyLower rankE3.title ++ " " ++ pyLower rankE3.text =
        "funding merger layoff policy launch debate dispute " := by decide
    rw [calculate_impact_score, hc]
    norm_num +decide [IMPACT_CRITERIA, List.foldl_cons, List.foldl_nil]
  have hurl1 : rankE1.url = "u1" := rfl
  have hurl2 : rankE2.url = "u2" := rfl
  have hurl3 : rankE3.url = "u3" := rfl
  rw [rank_articles, rank_heap, hr]
  norm_num +decide [hvir, hcon, himp1, himp2, himp3, updateArticle, hurl1, hurl2, hurl3,
    List.foldl_cons, List.foldl_nil, modifyIdx, dictGetD,
    List.find?_cons_of_pos, List.find?_cons_of_neg,
    sortDesc, insertDesc, finalScoreOf, RANKING_WEIGHTS,
    exceptOk_bind, exceptErr_bind, exceptMap_ok, exceptMap_error]

theorem sim_zzzy_zzzz : compute_similarity "alpha zzzy" "alpha zzzz" = 9/10 := by
  have h1 : normalize_text "alpha zzzy" = "alpha zzzy" := by decide
  have h2 : normalize_text "alpha zzzz" = "alpha zzzz" := by decide
  have h3 : smMatches "alpha zzzy".data "alpha zzzz".data = 9 := by decide
  rw [compute_similarity, if_neg (by decide), h1, h2, smRatio, if_neg (by decide),
    smMatchesTotal, if_pos (by decide), h3]
  norm_num

theorem dedup3_run : deduplicate_heap 0 [c4A, c4B, c4C] =
    ([{ c4A with sources := some ["sa", "sb", "sc"] }, c4B, c4C], [0]) := by
  have hta : (c4A.title : String) = "alpha zzzz" := rfl
  have htb : (c4B.title : String) = "alpha zzzy" := rfl
  have htc : (c4C.title : String) = "alpha zzzy" := rfl
  rw [deduplicate_heap]
  norm_num +decide [sortAsc, insertAsc, List.range, List.range.loop, List.foldl_cons,
    List.foldl_nil, dedupStep, articleFingerprint, compute_fingerprint,
    hta, htb, htc, sim_zzzy_zzzz, List.find?_cons_of_pos, List.find?_cons_of_neg,
    modifyIdx, c4A, c4B, c4C]

theorem sim_punct : compute_similarity "???" "!!!" = 1 := by
  have h1 : normalize_text "???" = "" := by decide
  have h2 : normalize_text "!!!" = "" := by decide
  rw [compute_similarity, if_neg (by decide), h1, h2, smRatio, if_pos (by decide)]

theorem dedup_punct_run : deduplicate_heap 0 [punctA, punctB] =
    ([{ punctA with sources := some ["sa", "sb"] }, punctB], [0]) := by
  have hta : (punctA.title : String) = "!!!" := rfl
  have htb : (punctB.title : String) = "???" := rfl
  rw [deduplicate_heap]
  norm_num +decide [sortAsc, insertAsc, List.range, List.range.loop, List.foldl_cons,
    List.foldl_nil, dedupStep, articleFingerprint, compute_fingerprint,
    hta, htb, sim_punct, List.find?_cons_of_pos, List.find?_cons_of_neg,
    modifyIdx, punctA, punctB]

theorem dedup_wA_run : deduplicate_heap 0 [wA] = ([wA], [0]) := by
  rw [deduplicate_heap]
  norm_num +decide [sortAsc, insertAsc, List.range, List.range.loop, List.foldl_cons,
    List.foldl_nil, dedupStep, articleFingerprint, compute_fingerprint]

theorem rank_wA_run (so : List String → List String) :
    rank_heap RANKING_WEIGHTS so [wA] [0] = Except.ok ([wOut so], [0]) := by
  have hvir : calculate_virality_score [wA] = Except.ok [("u", 100)] := by
    norm_num +decide [calculate_virality_score, engagement_of, wA,
      pyMax, pyDiv, List.foldlM_cons, List.foldlM_nil, dictInsert, max_def]
  have hcon : calculate_controversy_score [wA] = [("u", 0)] := by
    have h1 : controversy_count wA = 0 := by decide
    norm_num +decide [calculate_controversy_score, h1, List.foldl_cons,
      List.foldl_nil, dictInsert, min_def]
  have himp : calculate_impact_score wA = 0 := by
    have hc : pyLower wA.title ++ " " ++ pyLower wA.text = "zzz " := by decide
    rw [calculate_impact_score, hc]
    norm_num +decide [IMPACT_CRITERIA, List.foldl_cons, List.foldl_nil]
  have hurl : wA.url = "u" := rfl
  rw [rank_heap]
  norm_num +decide [hvir, hcon, himp, hurl, updateArticle,
    List.foldl_cons, List.foldl_nil, modifyIdx, dictGetD,
    List.find?_cons_of_pos, List.find?_cons_of_neg,
    sortDesc, insertDesc, finalScoreOf, RANKING_WEIGHTS, wOut, extract_tags,
    exceptOk_bind, exceptErr_bind, exceptMap_ok, exceptMap_error]

theorem process_wA_run (so : List String → List String) :
    process_articles RANKING_WEIGHTS so 0 [wA] = Except.ok [wOut so] := by
  rw [process_articles, dedup_wA_run]
  show (rank_heap RANKING_WEIGHTS so [wA] [0] >>= fun s =>
    Except.ok (s.2.map (fun i => s.1.getD i default))) = Except.ok [wOut so]
  rw [rank_wA_run so, exceptOk_bind]
  rfl

theorem sim_bbb_aaa : compute_similarity "bbb" "aaa" = 0 := by
  have h1 : normalize_text "bbb" = "bbb" := by decide
  have h2 : normalize_text "aaa" = "aaa" := by decide
  have h3 : smMatches "bbb".data "aaa".data = 0 := by decide
  rw [compute_similarity, if_neg (by decide), h1, h2, smRatio, if_neg (by decide),
    smMatchesTotal, if_pos (by decide), h3]
  norm_num

theorem dedup_neg_run : deduplicate_heap 0 [negA1, negA2] = ([negA1, negA2], [0, 1]) := by
  have hta : (negA1.title : String) = "aaa" := rfl
  have htb : (negA2.title : String) = "bbb" := rfl
  rw [deduplicate_heap]
  norm_num +decide [sortAsc, insertAsc, List.range, List.range.loop, List.foldl_cons,
    List.foldl_nil, dedupStep, articleFingerprint, compute_fingerprint,
    hta, htb, sim_bbb_aaa, List.find?_cons_of_pos, List.find?_cons_of_neg,
    modifyIdx, negA1, negA2]

theorem process_neg_run :
    (process_articles RANKING_WEIGHTS id 0 [negA1, negA2]).map
      (fun l => l.map (fun a => a.scores.map (fun s2 => (s2.virality, s2.final)))) =
    Except.ok [some (1000, 500), some (100, 50)] := by
  have hvir : calculate_virality_score [negA1, negA2] =
      Except.ok [("u1", 1000), ("u2", 100)] := by
    norm_num +decide [calculate_virality_score, engagement_of, negA1, negA2,
      pyMax, pyDiv, List.foldlM_cons, List.foldlM_nil, dictInsert, max_def]
  have hcon : calculate_controversy_score [negA1, negA2] = [("u1", 0), ("u2", 0)] := by
    have h1 : controversy_count negA1 = 0 := by decide
    have h2 : controversy_count negA2 = 0 := by decide
    norm_num +decide [calculate_controversy_score, h1, h2, List.foldl_cons,
      List.foldl_nil, dictInsert, min_def]
  have himp1 : calculate_impact_score negA1 = 0 := by
    have hc : pyLower negA1.title ++ " " ++ pyLower negA1.text = "aaa " := by decide
    rw [calculate_impact_score, hc]
    norm_num +decide [IMPACT_CRITERIA, List.foldl_cons, List.foldl_nil]
  have himp2 : calculate_impact_score negA2 = 0 := by
    have hc : pyLower negA2.title ++ " " ++ pyLower negA2.text = "bbb " := by decide
    rw [calculate_impact_score, hc]
    norm_num +decide [IMPACT_CRITERIA, List.foldl_cons, List.foldl_nil]
  have hurl1 : negA1.url = "u1" := rfl
  have hurl2 : negA2.url = "u2" := rfl
  rw [process_articles, dedup_neg_run]
  show (rank_heap RANKING_WEIGHTS id [negA1, negA2] [0, 1] >>= fun s =>
    Except.ok (s.2.map (fun i => s.1.getD i default))).map
      (fun l => l.map (fun a => a.scores.map (fun s2 => (s2.virality, s2.final)))) =
    Except.ok [some (1000, 500), some (100, 50)]
  rw [rank_heap]
  norm_num +decide [hvir, hcon, himp1, himp2, hurl1, hurl2, updateArticle,
    List.foldl_cons, List.foldl_nil, modifyIdx, dictGetD,
    List.find?_cons_of_pos, List.find?_cons_of_neg,
    sortDesc, insertDesc, finalScoreOf, RANKING_WEIGHTS,
    exceptOk_bind, exceptErr_bind, exceptMap_ok, exceptMap_error]

/-! ### Deduplication invariants -/

theorem erase_eq_title {a b : Article} (h : eraseSources a = eraseSources b) :
    a.title = b.title := by
  have h2 := congrArg Article.title h
  exact h2

theorem erase_eq_fp {a b : Article} (h : eraseSources a = eraseSources b) :
    articleFingerprint a = articleFingerprint b := by
  have h2 := congrArg articleFingerprint h
  exact h2

/-- The merge update of processor.py lines 106-111 preserves `SourcesShape`:
the created or extended `sources` list starts with the canonical's own
source. -/
theorem sourcesShape_merge (e : Article) (src : String) (h : SourcesShape e) :
    SourcesShape { e with sources := some ((match e.sources with
      | none => [e.source]
      | some l => l) ++ [src]) } := by
  intro l hl
  simp only [Option.some.injEq] at hl
  cases hsrc : e.sources with
  | none =>
      rw [hsrc] at hl
      refine ⟨[src], ?_⟩
      rw [← hl]
      rfl
  | some l0 =>
      obtain ⟨tl, htl⟩ := h l0 hsrc
      rw [hsrc] at hl
      refine ⟨tl ++ [src], ?_⟩
      rw [← hl, htl]
      rfl

theorem dedupStep_inv (store0 : List Article)
    (s : List Article × List String × List Nat) (i : Nat)
    (h : DedupInv store0 s) : DedupInv store0 (dedupStep s i) := by
  obtain ⟨hlen, hframe, hfps, hnd, hpw, hshape⟩ := h
  rw [dedupStep]
  split
  · exact ⟨hlen, hframe, hfps, hnd, hpw, hshape⟩
  · rename_i hmem
    split
    · rename_i u hfind
      refine ⟨?_, ?_, hfps, hnd, hpw, ?_⟩
      · show (modifyIdx _ u s.1).length = store0.length
        rw [length_modifyIdx]
        exact hlen
      · intro j
        refine Eq.trans (getD_modifyIdx_congr (fun e =>
            { e with sources := some ((match (s.1.getD u default).sources with
                | none => [(s.1.getD u default).source]
                | some l => l) ++ [(s.1.getD i default).source]) })
            eraseSources default (fun x => rfl) u j s.1) (hframe j)
      · intro h0
        have hold := hshape h0
        intro j
        show SourcesShape ((modifyIdx _ u s.1).getD j default)
        by_cases hj : j = u
        · subst hj
          by_cases hjl : j < s.1.length
          · rw [getD_modifyIdx_self _ default j s.1 hjl]
            have hm := sourcesShape_merge (s.1.getD j default) (s.1.getD i default).source (hold j)
            exact hm
          · rw [modifyIdx_oob _ j s.1 (by omega)]
            exact hold j
        · rw [getD_modifyIdx_ne _ default u j s.1 hj]
          exact hold j
    · rename_i hfind
      refine ⟨hlen, hframe, ?_, ?_, ?_, hshape⟩
      · rw [hfps, List.map_append, List.map_singleton, erase_eq_fp (hframe i)]
      · rw [List.nodup_append]
        refine ⟨hnd, List.nodup_singleton _, ?_⟩
        intro x hx
        simp only [List.mem_singleton]
        intro hxfp
        exact hmem (hxfp ▸ hx)
      · rw [List.pairwise_append]
        refine ⟨hpw, List.pairwise_singleton _ _, ?_⟩
        intro u1 hu1 u2 hu2
        rcases List.mem_singleton.mp hu2 with rfl
        have hn := List.find?_eq_none.mp hfind u1 hu1
        simp only [decide_eq_true_eq] at hn
        rw [← erase_eq_title (hframe u2), ← erase_eq_title (hframe u1)]
        exact le_of_not_lt hn

theorem insertAsc_perm (key : α → Nat) (x : α) :
    ∀ l : List α, (insertAsc key x l).Perm (x :: l) := by
  intro l
  induction l with
  | nil => exact List.Perm.refl _
  | cons y ys ih =>
      rw [insertAsc]
      by_cases h : key x < key y
      · rw [if_pos h]
      · rw [if_neg h]
        exact (ih.cons y).trans (List.Perm.swap x y ys)

theorem sortAsc_perm_aux (key : α → Nat) :
    ∀ (l acc : List α), (l.foldl (fun acc x => insertAsc key x acc) acc).Perm (acc ++ l) := by
  intro l
  induction l with
  | nil => intro acc; simp
  | cons x xs ih =>
      intro acc
      rw [List.foldl_cons]
      refine (ih (insertAsc key x acc)).trans ?_
      refine (List.Perm.append_right xs (insertAsc_perm key x acc)).trans ?_
      rw [List.cons_append]
      exact List.perm_middle.symm

theorem sortAsc_perm (key : α → Nat) (l : List α) : (sortAsc key l).Perm l := by
  simpa using sortAsc_perm_aux key l []

/-- The canonical-index list produced by one deduplication step either stays
or gains the processed index at the end. -/
theorem dedupStep_uniq_cases (s : List Article × List String × List Nat) (i : Nat) :
    (dedupStep s i).2.2 = s.2.2 ∨ (dedupStep s i).2.2 = s.2.2 ++ [i] := by
  rw [dedupStep]
  split
  · exact Or.inl rfl
  · split
    · exact Or.inl rfl
    · exact Or.inr rfl

theorem dedup_fold_uniq (L : Nat) :
    ∀ (todo : List Nat) (s : List Article × List String × List Nat),
      todo.Nodup → (∀ i ∈ todo, i < L) →
      s.2.2.Nodup → (∀ u ∈ s.2.2, u < L ∧ u ∉ todo) →
      (todo.foldl dedupStep s).2.2.Nodup ∧ ∀ u ∈ (todo.foldl dedupStep s).2.2, u < L := by
  intro todo
  induction todo with
  | nil => intro s _ _ hnd hu; exact ⟨hnd, fun u hu2 => (hu u hu2).1⟩
  | cons i todo ih =>
      intro s hndt ht hnd hu
      rw [List.nodup_cons] at hndt
      rw [List.foldl_cons]
      refine ih (dedupStep s i) hndt.2 (fun m hm => ht m (List.mem_cons_of_mem i hm)) ?_ ?_
      · rcases dedupStep_uniq_cases s i with hc | hc
        · rw [hc]; exact hnd
        · rw [hc, List.nodup_append]
          exact ⟨hnd, List.nodup_singleton _, fun x hx => by
            simp only [List.mem_singleton]
            intro hxi
            exact (hu x hx).2 (hxi ▸ List.mem_cons_self i todo)⟩
      · intro u hu2
        rcases dedupStep_uniq_cases s i with hc | hc
        · rw [hc] at hu2
          exact ⟨(hu u hu2).1, fun hm => (hu u hu2).2 (List.mem_cons_of_mem i hm)⟩
        · rw [hc] at hu2
          rcases List.mem_append.mp hu2 with hu3 | hu3
          · exact ⟨(hu u hu3).1, fun hm => (hu u hu3).2 (List.mem_cons_of_mem i hm)⟩
          · rcases List.mem_singleton.mp hu3 with rfl
            exact ⟨ht u (List.mem_cons_self u todo), fun hm => hndt.1 hm⟩

/-- The deduplicator's output: kept-canonical indices are duplicate-free and
in range. -/
theorem dedup_uniq_valid (now : Nat) (store st' : List Article) (idxs : List Nat)
    (h : deduplicate_heap now store = (st', idxs)) :
    idxs.Nodup ∧ ∀ u ∈ idxs, u < store.length := by
  rw [deduplicate_heap] at h
  by_cases hs : store = []
  · rw [if_pos hs] at h
    cases h
    exact ⟨List.nodup_nil, by simp⟩
  · rw [if_neg hs] at h
    have hperm := sortAsc_perm
      (fun i => ((store.getD i default).published_at).getD now)
      (List.range store.length)
    have hnd : (sortAsc (fun i => ((store.getD i default).published_at).getD now)
        (List.range store.length)).Nodup := hperm.nodup_iff.mpr (List.nodup_range store.length)
    have hmem : ∀ i ∈ sortAsc (fun i => ((store.getD i default).published_at).getD now)
        (List.range store.length), i < store.length := by
      intro i hi
      exact List.mem_range.mp (hperm.mem_iff.mp hi)
    have hres := dedup_fold_uniq store.length _ (store, [], []) hnd hmem
      List.nodup_nil (by simp)
    dsimp only at h
    injection h with h1 h2
    subst h2
    exact hres

/-- The full invariant of the deduplicator's output. -/
theorem deduplicate_heap_spec (now : Nat) (store st' : List Article) (idxs : List Nat)
    (h : deduplicate_heap now store = (st', idxs)) :
    st'.length = store.length ∧
    (∀ j, eraseSources (st'.getD j default) = eraseSources (store.getD j default)) ∧
    (idxs.map (fun u => articleFingerprint (store.getD u default))).Nodup ∧
    idxs.Pairwise (fun u1 u2 =>
      compute_similarity ((store.getD u2 default).title) ((store.getD u1 default).title) ≤ 0.8) ∧
    ((∀ j, SourcesShape (store.getD j default)) → ∀ j, SourcesShape (st'.getD j default)) := by
  rw [deduplicate_heap] at h
  by_cases hs : store = []
  · rw [if_pos hs] at h
    cases h
    refine ⟨rfl, fun j => rfl, ?_, ?_, fun h0 => h0⟩
    · simp
    · simp
  · rw [if_neg hs] at h
    have hinv : DedupInv store ((sortAsc
        (fun i => ((store.getD i default).published_at).getD now)
        (List.range store.length)).foldl dedupStep (store, [], [])) := by
      refine foldl_inv (fun s i hs2 => dedupStep_inv store s i hs2) _ _ ?_
      exact ⟨rfl, fun j => rfl, rfl, List.nodup_nil, List.Pairwise.nil, fun h0 => h0⟩
    obtain ⟨hlen, hframe, hfps, hnd, hpw, hshape⟩ := hinv
    dsimp only at h
    injection h with h1 h2
    subst h1
    subst h2
    refine ⟨hlen, hframe, ?_, hpw, hshape⟩
    rw [← hfps]
    exact hnd

/-! ### Ranking-stage lemmas -/

theorem updateArticle_eraseDerived (w : RankingWeights) (so : List String → List String)
    (vs cs : List (String × ℚ)) (a : Article) :
    eraseDerived (updateArticle w so vs cs a) = eraseDerived a := rfl

theorem updateArticle_raw_tags (w : RankingWeights) (so : List String → List String)
    (vs cs : List (String × ℚ)) (a : Article) :
    extract_tags_raw (updateArticle w so vs cs a) = extract_tags_raw a := rfl

/-- Destructor for a successful `rank_heap` run: either the batch was empty,
or the output store is the update fold and the ranking is the stable
descending sort of the indices by final score. -/
theorem rank_heap_ok (w : RankingWeights) (so : List String → List String)
    (store : List Article) (idxs : List Nat) (store1 : List Article) (ranked : List Nat)
    (h : rank_heap w so store idxs = Except.ok (store1, ranked)) :
    (idxs = [] ∧ store1 = store ∧ ranked = []) ∨
    ∃ vs, calculate_virality_score (idxs.map (fun i => store.getD i default)) = Except.ok vs ∧
      store1 = idxs.foldl (fun st i => modifyIdx (updateArticle w so vs
        (calculate_controversy_score (idxs.map (fun i => store.getD i default)))) i st) store ∧
      ranked = sortDesc (fun i => finalScoreOf (store1.getD i default)) idxs := by
  rw [rank_heap] at h
  by_cases hi : idxs = []
  · rw [if_pos hi] at h
    injection h with h1
    injection h1 with h2 h3
    exact Or.inl ⟨hi, h2.symm, h3.symm⟩
  · rw [if_neg hi] at h
    dsimp only at h
    cases hv : calculate_virality_score (idxs.map (fun i => store.getD i default)) with
    | error e =>
        rw [hv] at h
        exact absurd h (by simp [exceptErr_bind])
    | ok vs =>
        rw [hv, exceptOk_bind] at h
        injection h with h1
        injection h1 with h2 h3
        exact Or.inr ⟨vs, rfl, h2.symm, by rw [← h2, ← h3]⟩

/-- C9's frame for the ranking stage: only `scores`, `summary` and `tags`
are written. -/
theorem rank_heap_frame (w : RankingWeights) (so : List String → List String)
    (store : List Article) (idxs : List Nat) (store1 : List Article) (ranked : List Nat)
    (h : rank_heap w so store idxs = Except.ok (store1, ranked)) (j : Nat) :
    eraseDerived (store1.getD j default) = eraseDerived (store.getD j default) := by
  rcases rank_heap_ok w so store idxs store1 ranked h with ⟨_, rfl, _⟩ | ⟨vs, _, hst, _⟩
  · rfl
  · rw [hst]
    exact foldl_modify_getD_congr _ eraseDerived default
      (fun x => updateArticle_eraseDerived w so vs _ x) idxs store j

/-- On duplicate-free, in-range index lists, the ranking loop stores
`updateArticle` of each indexed article. -/
theorem rank_heap_entry (w : RankingWeights) (so : List String → List String)
    (store : List Article) (idxs : List Nat) (store1 : List Article) (ranked : List Nat)
    (h : rank_heap w so store idxs = Except.ok (store1, ranked))
    (hnd : idxs.Nodup) (hlen : ∀ u ∈ idxs, u < store.length) (i : Nat) (hi : i ∈ ranked) :
    i ∈ idxs ∧
    ∃ vs, calculate_virality_score (idxs.map (fun i => store.getD i default)) = Except.ok vs ∧
      store1.getD i default = updateArticle w so vs
        (calculate_controversy_score (idxs.map (fun i => store.getD i default)))
        (store.getD i default) := by
  rcases rank_heap_ok w so store idxs store1 ranked h with ⟨rfl, _, rfl⟩ | ⟨vs, hv, hst, hr⟩
  · simp at hi
  · rw [hr] at hi
    have hmem := (mem_sortDesc _ idxs i).mp hi
    refine ⟨hmem, vs, hv, ?_⟩
    rw [hst]
    exact foldl_modify_getD_mem _ default idxs store i hnd hmem (hlen i hmem)

theorem final_bounds {v imp c : ℚ} (hv : 0 ≤ v) (hv2 : v ≤ 100) (hi : 0 ≤ imp)
    (hi2 : imp ≤ 100) (hc : 0 ≤ c) (hc2 : c ≤ 100) :
    0 ≤ (0.5 : ℚ) * v + 0.35 * imp + 0.15 * c ∧
      (0.5 : ℚ) * v + 0.35 * imp + 0.15 * c ≤ 100 := by
  norm_num
  constructor <;> nlinarith

theorem updateArticle_scores (w : RankingWeights) (so : List String → List String)
    (vs cs : List (String × ℚ)) (a : Article) :
    (updateArticle w so vs cs a).scores = some
      { virality := dictGetD vs a.url 0,
        impact := calculate_impact_score a,
        controversy := dictGetD cs a.url 0,
        final := w.virality * dictGetD vs a.url 0 + w.impact * calculate_impact_score a +
          w.controversy * dictGetD cs a.url 0 } := rfl

theorem rank_scores_bounded
    (so : List String → List String) (store : List Article) (idxs : List Nat)
    (store1 : List Article) (ranked : List Nat)
    (hnd : idxs.Nodup) (hlen : ∀ u ∈ idxs, u < store.length)
    (h0 : ∀ i ∈ idxs, 0 ≤ engagement_of (store.getD i default))
    (hpos : ∃ i ∈ idxs, 0 < engagement_of (store.getD i default))
    (h : rank_heap RANKING_WEIGHTS so store idxs = Except.ok (store1, ranked))
    (i : Nat) (hi : i ∈ ranked) (s : ScoreSet)
    (hs : (store1.getD i default).scores = some s) :
    (0 ≤ s.virality ∧ s.virality ≤ 100) ∧ (0 ≤ s.impact ∧ s.impact ≤ 100) ∧
    (0 ≤ s.controversy ∧ s.controversy ≤ 100) ∧ (0 ≤ s.final ∧ s.final ≤ 100) := by
  obtain ⟨hmem, vs, hv, hent⟩ :=
    rank_heap_entry RANKING_WEIGHTS so store idxs store1 ranked h hnd hlen i hi
  rw [hent, updateArticle_scores, Option.some.injEq] at hs
  have hvb : ∀ p ∈ vs, 0 ≤ p.2 ∧ p.2 ≤ 100 := by
    refine virality_bounds _ vs hv ?_ ?_
    · intro a ha
      rcases List.mem_map.mp ha with ⟨u, hu, rfl⟩
      exact h0 u hu
    · obtain ⟨u, hu, hupos⟩ := hpos
      exact ⟨store.getD u default, List.mem_map_of_mem _ hu, hupos⟩
  have hcb := controversy_dict_bounds (idxs.map (fun i => store.getD i default))
  have hvdict : 0 ≤ dictGetD vs (store.getD i default).url 0 ∧
      dictGetD vs (store.getD i default).url 0 ≤ 100 :=
    dictGetD_bound vs _ 0 (fun x => 0 ≤ x ∧ x ≤ 100) hvb (by norm_num)
  have hcdict : 0 ≤ dictGetD (calculate_controversy_score
        (idxs.map (fun i => store.getD i default))) (store.getD i default).url 0 ∧
      dictGetD (calculate_controversy_score
        (idxs.map (fun i => store.getD i default))) (store.getD i default).url 0 ≤ 100 :=
    dictGetD_bound _ _ 0 (fun x => 0 ≤ x ∧ x ≤ 100) hcb (by norm_num)
  have himp1 := impact_nonneg (store.getD i default)
  have himp2 := impact_le_100 (store.getD i default)
  have hfb := final_bounds hvdict.1 hvdict.2 himp1 himp2 hcdict.1 hcdict.2
  rw [← hs]
  exact ⟨⟨hvdict.1, hvdict.2⟩, ⟨himp1, himp2⟩, ⟨hcdict.1, hcdict.2⟩, hfb.1, hfb.2⟩

/-! ### Determinism modulo the set-enumeration order -/

theorem eraseTags_fields {a b : Article} (h : eraseTags a = eraseTags b) :
    a.title = b.title ∧ a.url = b.url ∧ a.text = b.text ∧ a.source = b.source ∧
    a.category = b.category ∧ a.published_at = b.published_at ∧
    a.reddit_score = b.reddit_score ∧ a.reddit_comments = b.reddit_comments ∧
    a.sources = b.sources ∧ a.scores = b.scores ∧ a.summary = b.summary := by
  cases a
  cases b
  simp only [eraseTags, Article.mk.injEq] at h
  simp only [Article.mk.injEq]
  obtain ⟨h1, h2, h3, h4, h5, h6, h7, h8, h9, h10, h11, _⟩ := h
  exact ⟨h1, h2, h3, h4, h5, h6, h7, h8, h9, h10, h11⟩

theorem updateArticle_eraseTags_congr (w : RankingWeights)
    (so1 so2 : List String → List String) (vs cs : List (String × ℚ)) {a b : Article}
    (h : eraseTags a = eraseTags b) :
    eraseTags (updateArticle w so1 vs cs a) = eraseTags (updateArticle w so2 vs cs b) := by
  obtain ⟨h1, h2, h3, h4, h5, h6, h7, h8, h9, h10, h11⟩ := eraseTags_fields h
  cases a
  cases b
  simp only [Article.mk.injEq] at h1 h2 h3 h4 h5 h6 h7 h8 h9 h10 h11 ⊢
  subst h1 h2 h3 h4 h5 h6 h7 h8 h9 h10 h11
  rfl

theorem finalScoreOf_eraseTags {a b : Article} (h : eraseTags a = eraseTags b) :
    finalScoreOf a = finalScoreOf b := by
  have hs := (eraseTags_fields h).2.2.2.2.2.2.2.2.2.1
  rw [finalScoreOf, finalScoreOf, hs]

theorem getD_map (g : α → β) (d : α) :
    ∀ (l : List α) (j : Nat), (l.map g).getD j (g d) = g (l.getD j d) := by
  intro l
  induction l with
  | nil => intro j; rfl
  | cons x xs ih =>
      intro j
      cases j with
      | zero => rfl
      | succ m => simp only [List.map_cons, List.getD_cons_succ]; exact ih m

theorem map_eq_getD {g : α → β} {l1 l2 : List α} (h : l1.map g = l2.map g) (d : α) (j : Nat) :
    g (l1.getD j d) = g (l2.getD j d) := by
  rw [← getD_map g d l1 j, ← getD_map g d l2 j, h]

theorem modifyIdx_map_congr (g : α → β) (f1 f2 : α → α)
    (hf : ∀ a b, g a = g b → g (f1 a) = g (f2 b)) :
    ∀ (i : Nat) (l1 l2 : List α), l1.map g = l2.map g →
      (modifyIdx f1 i l1).map g = (modifyIdx f2 i l2).map g := by
  intro i
  induction i with
  | zero =>
      intro l1 l2 h
      cases l1 with
      | nil => cases l2 with
          | nil => rfl
          | cons y ys => simp at h
      | cons x xs =>
          cases l2 with
          | nil => simp at h
          | cons y ys =>
              simp only [List.map_cons, List.cons.injEq] at h
              simp only [modifyIdx, List.map_cons, List.cons.injEq]
              exact ⟨hf x y h.1, h.2⟩
  | succ n ih =>
      intro l1 l2 h
      cases l1 with
      | nil => cases l2 with
          | nil => rfl
          | cons y ys => simp at h
      | cons x xs =>
          cases l2 with
          | nil => simp at h
          | cons y ys =>
              simp only [List.map_cons, List.cons.injEq] at h
              simp only [modifyIdx, List.map_cons, List.cons.injEq]
              exact ⟨h.1, ih xs ys h.2⟩

theorem foldl_modify_map_congr (g : α → β) (f1 f2 : α → α)
    (hf : ∀ a b, g a = g b → g (f1 a) = g (f2 b)) :
    ∀ (idxs : List Nat) (l1 l2 : List α), l1.map g = l2.map g →
      (idxs.foldl (fun st i => modifyIdx f1 i st) l1).map g =
      (idxs.foldl (fun st i => modifyIdx f2 i st) l2).map g := by
  intro idxs
  induction idxs with
  | nil => intro l1 l2 h; exact h
  | cons i idxs ih =>
      intro l1 l2 h
      rw [List.foldl_cons, List.foldl_cons]
      exact ih _ _ (modifyIdx_map_congr g f1 f2 hf i l1 l2 h)

theorem insertDesc_congr (k1 k2 : α → ℚ) (x : α) :
    ∀ l : List α, k1 x = k2 x → (∀ y ∈ l, k1 y = k2 y) →
      insertDesc k1 x l = insertDesc k2 x l := by
  intro l
  induction l with
  | nil => intro _ _; rfl
  | cons y ys ih =>
      intro hx hl
      have hy := hl y (List.mem_cons_self y ys)
      rw [insertDesc, insertDesc, hx, hy]
      by_cases h : k2 y < k2 x
      · rw [if_pos h, if_pos h]
      · rw [if_neg h, if_neg h, ih hx (fun z hz => hl z (List.mem_cons_of_mem y hz))]

theorem sortDesc_congr (k1 k2 : α → ℚ) :
    ∀ (l acc : List α), (∀ y ∈ l, k1 y = k2 y) → (∀ y ∈ acc, k1 y = k2 y) →
      l.foldl (fun acc x => insertDesc k1 x acc) acc =
      l.foldl (fun acc x => insertDesc k2 x acc) acc := by
  intro l
  induction l with
  | nil => intro acc _ _; rfl
  | cons x xs ih =>
      intro acc hl hacc
      have hx := hl x (List.mem_cons_self x xs)
      rw [List.foldl_cons, List.foldl_cons,
        insertDesc_congr k1 k2 x acc hx hacc]
      refine ih _ (fun y hy => hl y (List.mem_cons_of_mem x hy)) ?_
      intro y hy
      rcases (mem_insertDesc k2 x y acc).mp hy with rfl | hy2
      · exact hx
      · exact hacc y hy2

/-- The pipeline output, viewed without the `tags` key, does not depend on
the `list(set(·))` enumeration order: article order, scores, summaries and
all raw fields coincide across runs with different set-enumeration
behaviours. -/
theorem process_articles_mod_tags (w : RankingWeights) (now : Nat) (batch : List Article)
    (so1 so2 : List String → List String) :
    (process_articles w so1 now batch).map (fun l => l.map eraseTags) =
    (process_articles w so2 now batch).map (fun l => l.map eraseTags) := by
  rw [process_articles, process_articles]
  rw [rank_heap, rank_heap]
  by_cases hidx : (deduplicate_heap now batch).2 = []
  · rw [if_pos hidx, if_pos hidx]
  · rw [if_neg hidx, if_neg hidx]
    dsimp only
    cases hv : calculate_virality_score
        ((deduplicate_heap now batch).2.map
          (fun i => (deduplicate_heap now batch).1.getD i default)) with
    | error e => simp only [exceptErr_bind]
    | ok vs =>
        simp only [exceptOk_bind]
        have hstores : ((deduplicate_heap now batch).2.foldl
            (fun st i => modifyIdx (updateArticle w so1 vs
              (calculate_controversy_score ((deduplicate_heap now batch).2.map
                (fun i => (deduplicate_heap now batch).1.getD i default)))) i st)
            (deduplicate_heap now batch).1).map eraseTags =
          ((deduplicate_heap now batch).2.foldl
            (fun st i => modifyIdx (updateArticle w so2 vs
              (calculate_controversy_score ((deduplicate_heap now batch).2.map
                (fun i => (deduplicate_heap now batch).1.getD i default)))) i st)
            (deduplicate_heap now batch).1).map eraseTags := by
          refine foldl_modify_map_congr eraseTags _ _ ?_ _ _ _ rfl
          intro a b hab
          exact updateArticle_eraseTags_congr w so1 so2 vs _ hab
        have hkeys : ∀ i, finalScoreOf
            (((deduplicate_heap now batch).2.foldl
              (fun st i => modifyIdx (updateArticle w so1 vs
                (calculate_controversy_score ((deduplicate_heap now batch).2.map
                  (fun i => (deduplicate_heap now batch).1.getD i default)))) i st)
              (deduplicate_heap now batch).1).getD i default) = finalScoreOf
            (((deduplicate_heap now batch).2.foldl
              (fun st i => modifyIdx (updateArticle w so2 vs
                (calculate_controversy_score ((deduplicate_heap now batch).2.map
                  (fun i => (deduplicate_heap now batch).1.getD i default)))) i st)
              (deduplicate_heap now batch).1).getD i default) := by
          intro i
          exact finalScoreOf_eraseTags (map_eq_getD hstores default i)
        have hsorts : sortDesc (fun i => finalScoreOf
            (((deduplicate_heap now batch).2.foldl
              (fun st i => modifyIdx (updateArticle w so1 vs
                (calculate_controversy_score ((deduplicate_heap now batch).2.map
                  (fun i => (deduplicate_heap now batch).1.getD i default)))) i st)
              (deduplicate_heap now batch).1).getD i default)) (deduplicate_heap now batch).2 =
          sortDesc (fun i => finalScoreOf
            (((deduplicate_heap now batch).2.foldl
              (fun st i => modifyIdx (updateArticle w so2 vs
                (calculate_controversy_score ((deduplicate_heap now batch).2.map
                  (fun i => (deduplicate_heap now batch).1.getD i default)))) i st)
              (deduplicate_heap now batch).1).getD i default)) (deduplicate_heap now batch).2 := by
          rw [sortDesc, sortDesc]
          exact sortDesc_congr _ _ _ [] (fun y _ => hkeys y) (by simp)
        rw [hsorts, exceptMap_ok, exceptMap_ok]
        rw [List.map_map, List.map_map]
        refine congrArg Except.ok (List.map_congr_left ?_)
        intro i _
        exact map_eq_getD hstores default i

/-- Every article the pipeline outputs carries exactly the tag list produced
by applying the set-enumeration to the raw category+rules tag list of that
article. -/
theorem process_tags_eq (w : RankingWeights) (so : List String → List String)
    (now : Nat) (batch : List Article) (out : List Article)
    (h : process_articles w so now batch = Except.ok out) :
    ∀ a ∈ out, a.tags = some (so (extract_tags_raw a)) := by
  rw [process_articles] at h
  cases hr : rank_heap w so (deduplicate_heap now batch).1 (deduplicate_heap now batch).2 with
  | error e =>
      rw [hr] at h
      exact absurd h (by simp [exceptErr_bind])
  | ok s =>
      rw [hr, exceptOk_bind] at h
      injection h with h1
      intro a ha
      rw [← h1] at ha
      rcases List.mem_map.mp ha with ⟨i, hi, rfl⟩
      have heta : deduplicate_heap now batch =
          ((deduplicate_heap now batch).1, (deduplicate_heap now batch).2) := rfl
      have hvalid := dedup_uniq_valid now batch _ _ heta
      have hspec := deduplicate_heap_spec now batch _ _ heta
      have hlen2 : ∀ u ∈ (deduplicate_heap now batch).2,
          u < (deduplicate_heap now batch).1.length := by
        intro u hu
        rw [hspec.1]
        exact hvalid.2 u hu
      obtain ⟨hmem, vs, hv, hent⟩ := rank_heap_entry w so
        (deduplicate_heap now batch).1 (deduplicate_heap now batch).2 s.1 s.2
        (by rw [hr]) hvalid.1 hlen2 i hi
      rw [hent]
      have hraw := updateArticle_raw_tags w so vs
        (calculate_controversy_score ((deduplicate_heap now batch).2.map
          (fun i => (deduplicate_heap now batch).1.getD i default)))
        ((deduplicate_heap now batch).1.getD i default)
      rw [show (updateArticle w so vs
        (calculate_controversy_score ((deduplicate_heap now batch).2.map
          (fun i => (deduplicate_heap now batch).1.getD i default)))
        ((deduplicate_heap now batch).1.getD i default)).tags =
          some (so (extract_tags_raw
            ((deduplicate_heap now batch).1.getD i default))) from rfl, hraw]

/-! ## Remaining concrete material for the claims -/

theorem dedupStep_discard (s : List Article × List String × List Nat) (i : Nat)
    (h : articleFingerprint (s.1.getD i default) ∈ s.2.1) : dedupStep s i = s := by
  rw [dedupStep, if_pos h]

/-! ## The claims -/

/-- C1 (code_bug): the spec says an all-zero-engagement batch yields
virality 0 for every article and that the scorers never raise; the code
divides by `max_engagement = 0.0` at processor.py line 194 (its
`if engagement_data` guard tests list emptiness, not a zero maximum) and
raises `ZeroDivisionError` on the batch `[{'url': 'u'}]` whose defaulted
engagement is `0 + 0*0.1 = 0.0`. -/
theorem C1_virality_raises_on_all_zero_engagement :
    calculate_virality_score [({ url := "u" } : Article)] =
      Except.error PyErr.zeroDivision :=
  virality_zero_run

/-- C2 (counterexample): with any negative engagement values the scores
leave `[0,100]`: on the batch `[reddit_score = -10, reddit_score = -1]` the
pipeline outputs virality `1000` and final `500` for the first article. -/
theorem C2_counterexample_scores_out_of_range :
    (process_articles RANKING_WEIGHTS id 0 [negA1, negA2]).map
      (fun l => l.map (fun a => a.scores.map (fun s2 => (s2.virality, s2.final)))) =
    Except.ok [some (1000, 500), some (100, 50)] ∧
    ¬ ((1000 : ℚ) ≤ 100) ∧ ¬ ((500 : ℚ) ≤ 100) :=
  ⟨process_neg_run, by norm_num, by norm_num⟩

/-- C2 (amended): when every article handed to the ranking stage has
nonnegative engagement and at least one has positive engagement (so that
the batch-relative normalization is well defined and the virality scorer
does not raise), all four stored scores of every ranked article lie in
`[0, 100]`. -/
theorem C2_amended_scores_in_range
    (so : List String → List String) (store : List Article) (idxs : List Nat)
    (store1 : List Article) (ranked : List Nat)
    (hnd : idxs.Nodup) (hlen : ∀ u ∈ idxs, u < store.length)
    (h0 : ∀ i ∈ idxs, 0 ≤ engagement_of (store.getD i default))
    (hpos : ∃ i ∈ idxs, 0 < engagement_of (store.getD i default))
    (h : rank_heap RANKING_WEIGHTS so store idxs = Except.ok (store1, ranked))
    (i : Nat) (hi : i ∈ ranked) (s : ScoreSet)
    (hs : (store1.getD i default).scores = some s) :
    (0 ≤ s.virality ∧ s.virality ≤ 100) ∧ (0 ≤ s.impact ∧ s.impact ≤ 100) ∧
    (0 ≤ s.controversy ∧ s.controversy ≤ 100) ∧ (0 ≤ s.final ∧ s.final ≤ 100) :=
  rank_scores_bounded so store idxs store1 ranked hnd hlen h0 hpos h i hi s hs

/-- C2 (witness): the single-article batch `wA` ranks successfully and its
stored scores `⟨100, 0, 0, 50⟩` satisfy the bounds. -/
theorem C2_witness :
    (0 ≤ (100 : ℚ) ∧ (100 : ℚ) ≤ 100) ∧ (0 ≤ (0 : ℚ) ∧ (0 : ℚ) ≤ 100) ∧
    (0 ≤ (0 : ℚ) ∧ (0 : ℚ) ≤ 100) ∧ (0 ≤ (50 : ℚ) ∧ (50 : ℚ) ≤ 100) :=
  C2_amended_scores_in_range id [wA] [0] [wOut id] [0]
    (by decide) (by decide)
    (by
      intro i hi
      rcases List.mem_singleton.mp hi with rfl
      show (0 : ℚ) ≤ engagement_of wA
      norm_num [engagement_of, wA])
    ⟨0, List.mem_singleton.mpr rfl, by
      show (0 : ℚ) < engagement_of wA
      norm_num [engagement_of, wA]⟩
    (rank_wA_run id) 0 (by decide)
    { virality := 100, impact := 0, controversy := 0, final := 50 } rfl

/-- C3 (counterexample): the spec's example claims impact 30 for
"Startup raises $5M Series A in Bangalore" with empty text, but the code's
substring matching also fires the `ai_ml` criterion (`'ai'` occurs inside
"raises"), giving 45. -/
theorem C3_counterexample_impact_not_30 :
    calculate_impact_score bangaloreArticle ≠ 30 := by
  rw [impact_bangalore_eval]
  norm_num

/-- C3 (amended): the impact score of the example article is 45:
funding_round (20, via 'raise'/'series') + india_macro (10, via
'bangalore') + ai_ml (15, via the substring 'ai' of "raises"), each
criterion counted at most once. -/
theorem C3_amended_impact_45 :
    calculate_impact_score bangaloreArticle = 45 :=
  impact_bangalore_eval

/-- C4 (counterexample): two articles with identical normalized title+url
(`c4B`, `c4C`) whose earlier member was itself merged into a prior
canonical (`c4A`) by title similarity: the earlier one's fingerprint is
never recorded (fingerprints are recorded only when an article becomes a
canonical), so the later one is not discarded as an exact duplicate and its
source `"sc"` is appended to the canonical's sources a second time. -/
theorem C4_counterexample_exact_duplicate_source_appended :
    articleFingerprint c4B = articleFingerprint c4C ∧
    articleFingerprint c4A ≠ articleFingerprint c4B ∧
    (deduplicate_heap 0 [c4A, c4B, c4C]).2 = [0] ∧
    ((deduplicate_heap 0 [c4A, c4B, c4C]).1.getD 0 default).sources =
      some ["sa", "sb", "sc"] := by
  refine ⟨by decide, by decide, ?_, ?_⟩
  · rw [dedup3_run]
  · rw [dedup3_run]
    rfl

/-- C4 (amended): the kept canonicals always have pairwise-distinct
fingerprints, and an article whose fingerprint is already in the seen set
is discarded with the state unchanged (no canonical created, no source
appended); but only fingerprints of articles that became canonicals are
recorded, so an exact duplicate of an article that was itself merged away
as a near-duplicate is not caught (see the counterexample). -/
theorem C4_amended_fingerprint_dedup :
    (∀ (now : Nat) (store st' : List Article) (idxs : List Nat),
      deduplicate_heap now store = (st', idxs) →
      (idxs.map (fun u => articleFingerprint (store.getD u default))).Nodup) ∧
    (∀ (s : List Article × List String × List Nat) (i : Nat),
      articleFingerprint (s.1.getD i default) ∈ s.2.1 → dedupStep s i = s) := by
  constructor
  · intro now store st' idxs h
    exact (deduplicate_heap_spec now store st' idxs h).2.2.1
  · intro s i h
    exact dedupStep_discard s i h

/-- C4 (witness): the fingerprint-distinctness applied to the concrete
three-article run, and a discard step on a state that has already recorded
the article's fingerprint. -/
theorem C4_witness :
    (([0] : List Nat).map
      (fun u => articleFingerprint ([c4A, c4B, c4C].getD u default))).Nodup ∧
    dedupStep discardState 0 = discardState := by
  constructor
  · exact C4_amended_fingerprint_dedup.1 0 [c4A, c4B, c4C] _ [0]
      (by rw [dedup3_run])
  · exact C4_amended_fingerprint_dedup.2 discardState 0 (by decide)

/-- C5 (counterexample): a canonical that absorbed no near-duplicate does
not carry its own source as a one-element list: the `sources` key is absent
(`none`) on the single-article batch. -/
theorem C5_counterexample_sources_absent :
    (deduplicate_articles 0 [wA]).map (fun a => a.sources) = [none] ∧
    (none : Option (List String)) ≠ some [wA.source] := by
  constructor
  · rw [deduplicate_articles, dedup_wA_run]
    rfl
  · intro h
    cases h

theorem getD_mem_or_eq (d : α) : ∀ (l : List α) (j : Nat), l.getD j d ∈ l ∨ l.getD j d = d := by
  intro l
  induction l with
  | nil => intro j; exact Or.inr rfl
  | cons x xs ih =>
      intro j
      cases j with
      | zero => exact Or.inl (List.mem_cons_self x xs)
      | succ m =>
          rcases ih m with h | h
          · exact Or.inl (List.mem_cons_of_mem x (by simpa using h))
          · exact Or.inr (by simpa using h)

/-- C5 (amended): on a batch whose articles carry no `sources` key, every
kept canonical's `sources` list, when present, is non-empty and starts with
the canonical's own source; and the kept canonicals are pairwise
non-near-duplicates (title similarity at most the 0.8 threshold, later
canonical compared against earlier as in the source's scan).  A canonical
that absorbed no near-duplicate has no `sources` key at all (see the
counterexample). -/
theorem C5_amended_sources_shape
    (now : Nat) (store st' : List Article) (idxs : List Nat)
    (h0 : ∀ a ∈ store, a.sources = none)
    (h : deduplicate_heap now store = (st', idxs)) :
    (∀ u ∈ idxs, ∀ l, (st'.getD u default).sources = some l →
      l ≠ [] ∧ l.head? = some (st'.getD u default).source) ∧
    idxs.Pairwise (fun u1 u2 =>
      compute_similarity ((st'.getD u2 default).title)
        ((st'.getD u1 default).title) ≤ 0.8) := by
  have hspec := deduplicate_heap_spec now store st' idxs h
  have hshape0 : ∀ j, SourcesShape (store.getD j default) := by
    intro j
    rcases getD_mem_or_eq default store j with hm | hd
    · intro l hl
      rw [h0 _ hm] at hl
      cases hl
    · intro l hl
      rw [hd] at hl
      cases hl
  have hshape := hspec.2.2.2.2 hshape0
  constructor
  · intro u _ l hl
    obtain ⟨tl, htl⟩ := hshape u l hl
    subst htl
    exact ⟨List.cons_ne_nil _ _, rfl⟩
  · refine hspec.2.2.2.1.imp ?_
    intro u1 u2 h12
    rw [erase_eq_title (hspec.2.1 u2), erase_eq_title (hspec.2.1 u1)]
    exact h12

/-- C5 (witness): applied to the three-article run: the canonical's merged
sources list is non-empty and starts with its own source "sa". -/
theorem C5_witness :
    (["sa", "sb", "sc"] : List String) ≠ [] ∧
    (["sa", "sb", "sc"] : List String).head? = some "sa" := by
  have happ := C5_amended_sources_shape 0 [c4A, c4B, c4C]
    [{ c4A with sources := some ["sa", "sb", "sc"] }, c4B, c4C] [0]
    (by intro a ha; fin_cases ha <;> rfl) dedup3_run
  exact happ.1 0 (List.mem_singleton.mpr rfl) ["sa", "sb", "sc"] rfl

/-- C6 (counterexample): the source serializes tags with `list(set(tags))`,
whose order is CPython's set-iteration order, not the claimed
category-first rule order.  An admissible set enumeration (returning a
permutation of the duplicate-free tag set) yields
`["funding", "global"]`, which differs from the spec-mandated serialization
`["global", "funding"]`. -/
theorem C6_counterexample_tag_order :
    extract_tags (fun l => (dedupKeepFirst l).reverse) tagArticle = ["funding", "global"] ∧
    (["funding", "global"] : List String).Perm (spec_tag_serialization tagArticle) ∧
    extract_tags (fun l => (dedupKeepFirst l).reverse) tagArticle ≠
      spec_tag_serialization tagArticle := by
  refine ⟨by decide, by decide, by decide⟩

/-- C6 (amended): for a fixed `datetime.now()` fallback, the pipeline is
deterministic except for the serialization order of each article's tags:
runs with different (even different) set-enumeration behaviours produce the
same article order, scores, summaries and fields apart from `tags`; and
each output article's `tags` is exactly the set enumeration applied to the
raw category+rule tag list, not the spec's category-first serialization. -/
theorem C6_amended_determinism_mod_tag_order :
    (∀ (w : RankingWeights) (now : Nat) (batch : List Article)
      (so1 so2 : List String → List String),
      (process_articles w so1 now batch).map (fun l => l.map eraseTags) =
      (process_articles w so2 now batch).map (fun l => l.map eraseTags)) ∧
    (∀ (w : RankingWeights) (so : List String → List String) (now : Nat)
      (batch : List Article) (out : List Article),
      process_articles w so now batch = Except.ok out →
      ∀ a ∈ out, a.tags = some (so (extract_tags_raw a))) :=
  ⟨process_articles_mod_tags, process_tags_eq⟩

/-- C6 (witness): the single-article pipeline run compared under two
different set enumerations, and the tags of its output article. -/
theorem C6_witness :
    ((process_articles RANKING_WEIGHTS id 0 [wA]).map (fun l => l.map eraseTags) =
      (process_articles RANKING_WEIGHTS (fun l => (dedupKeepFirst l).reverse) 0 [wA]).map
        (fun l => l.map eraseTags)) ∧
    (wOut id).tags = some (extract_tags_raw (wOut id)) := by
  constructor
  · exact C6_amended_determinism_mod_tag_order.1 RANKING_WEIGHTS 0 [wA] id
      (fun l => (dedupKeepFirst l).reverse)
  · exact C6_amended_determinism_mod_tag_order.2 RANKING_WEIGHTS id 0 [wA] [wOut id]
      (process_wA_run id) (wOut id) (List.mem_singleton.mpr rfl)

/-- C7 (counterexample): the constructor performs no weight validation:
with weights summing to `0.9` (not `1.0`), construction still succeeds and
raises no configuration error. -/
theorem C7_counterexample_no_error_on_bad_weights :
    NewsProcessor.init { virality := 0.5, impact := 0.3, controversy := 0.1 } =
      Except.ok () ∧
    ({ virality := 0.5, impact := 0.3, controversy := 0.1 } : RankingWeights).virality +
      ({ virality := 0.5, impact := 0.3, controversy := 0.1 } : RankingWeights).impact +
      ({ virality := 0.5, impact := 0.3, controversy := 0.1 } : RankingWeights).controversy ≠ 1 := by
  constructor
  · rfl
  · norm_num

/-- C7 (amended): `NewsProcessor.__init__` contains no weight check at all:
construction succeeds for every weight configuration (valid or not), so no
configuration error is ever raised at setup; the default `RANKING_WEIGHTS`
do sum to `1.0`. -/
theorem C7_amended_init_never_raises (w : RankingWeights) :
    NewsProcessor.init w = Except.ok () ∧
    RANKING_WEIGHTS.virality + RANKING_WEIGHTS.impact + RANKING_WEIGHTS.controversy = 1 := by
  constructor
  · rfl
  · norm_num [RANKING_WEIGHTS]

/-- C8 (confirmed): the ranking sort is stable on descending final score.
First conjunct: on any list tagged with strictly increasing pre-sort
positions, the sorted output is pairwise "strictly higher key first, equal
keys in pre-sort order" — equal final scores keep their pre-sort relative
order.  Second conjunct: the spec's example — three articles with final
scores `[42, 87.5, 87.5]` at pre-sort positions 1, 2, 3 come out as
`[article2, article3, article1]` (urls `["u2", "u3", "u1"]`). -/
theorem C8_sort_stable_descending :
    (∀ (β : Type) (key : β → ℚ) (l : List (Nat × β)),
      (l.map Prod.fst).Pairwise (· < ·) →
      (sortDesc (fun p => key p.2) l).Pairwise
        (fun p q => key q.2 < key p.2 ∨ (key q.2 = key p.2 ∧ p.1 < q.1))) ∧
    (∀ so : List String → List String,
      (rank_articles RANKING_WEIGHTS so [rankE1, rankE2, rankE3]).map
        (fun l => l.map (fun a => a.url)) = Except.ok ["u2", "u3", "u1"]) := by
  constructor
  · intro β key l hl
    exact sortDesc_stable (fun p => key p.2) Prod.fst l hl
  · exact rank3_urls

/-- C8 (witness): stability applied to the example's tagged final scores,
and the concrete ranking run with the identity set enumeration. -/
theorem C8_witness :
    (sortDesc (fun p : Nat × ℚ => p.2) [(1, (42 : ℚ)), (2, 87.5), (3, 87.5)]).Pairwise
      (fun p q => q.2 < p.2 ∨ (q.2 = p.2 ∧ p.1 < q.1)) ∧
    (rank_articles RANKING_WEIGHTS id [rankE1, rankE2, rankE3]).map
      (fun l => l.map (fun a => a.url)) = Except.ok ["u2", "u3", "u1"] := by
  constructor
  · exact C8_sort_stable_descending.1 ℚ id [(1, (42 : ℚ)), (2, 87.5), (3, 87.5)] (by decide)
  · exact C8_sort_stable_descending.2 id

/-- C9 (counterexample): the stages do mutate their input records in place:
ranking writes `scores`, `summary` and `tags` into the article it was
handed (the store after `rank_heap` differs from the input store), and
deduplication writes a `sources` list into the merged-into canonical. -/
theorem C9_counterexample_stages_mutate :
    rank_heap RANKING_WEIGHTS id [wA] [0] = Except.ok ([wOut id], [0]) ∧
    wOut id ≠ wA ∧
    ((deduplicate_heap 0 [c4A, c4B, c4C]).1.getD 0 default) ≠ c4A := by
  refine ⟨rank_wA_run id, ?_, ?_⟩
  · intro h
    have h2 := congrArg Article.scores h
    simp [wOut, wA] at h2
  · rw [dedup3_run]
    intro h
    have h2 := congrArg Article.sources h
    simp [c4A] at h2

/-- C9 (amended): the stages mutate only the derived keys of their input
records: deduplication changes nothing except the `sources` key of
merged-into canonicals, and ranking changes nothing except the `scores`,
`summary` and `tags` keys it writes; all identifying fields (title, url,
text, source, category, published_at, engagement) survive both stages
unchanged. -/
theorem C9_amended_stage_frame_conditions :
    (∀ (now : Nat) (store : List Article) (j : Nat),
      eraseSources (((deduplicate_heap now store).1).getD j default) =
        eraseSources (store.getD j default)) ∧
    (∀ (w : RankingWeights) (so : List String → List String)
      (store : List Article) (idxs : List Nat) (store1 : List Article) (ranked : List Nat),
      rank_heap w so store idxs = Except.ok (store1, ranked) →
      ∀ j, eraseDerived (store1.getD j default) = eraseDerived (store.getD j default)) := by
  constructor
  · intro now store j
    exact (deduplicate_heap_spec now store _ _ rfl).2.1 j
  · intro w so store idxs store1 ranked h j
    exact rank_heap_frame w so store idxs store1 ranked h j

/-- C9 (witness): the frames applied to the concrete runs: the mutated
canonical of the three-article dedup still agrees with its input on
everything but `sources`, and the ranked single article agrees with its
input on everything but `scores`, `summary`, `tags`. -/
theorem C9_witness :
    eraseSources (((deduplicate_heap 0 [c4A, c4B, c4C]).1).getD 0 default) =
      eraseSources ([c4A, c4B, c4C].getD 0 default) ∧
    eraseDerived ([wOut id].getD 0 default) = eraseDerived ([wA].getD 0 default) := by
  constructor
  · exact C9_amended_stage_frame_conditions.1 0 [c4A, c4B, c4C] 0
  · exact C9_amended_stage_frame_conditions.2 RANKING_WEIGHTS id [wA] [0] [wOut id] [0]
      (rank_wA_run id) 0

/-- C10 (counterexample): a pair of punctuation-only titles normalizes to
two empty strings, yet similarity is `1.0` (difflib's ratio of two empty
sequences), and the pair is merged as a near-duplicate by the
deduplicator — the spec says such no-signal pairs must compare as 0 and
never trigger a merge. -/
theorem C10_counterexample_punctuation_titles_merge :
    normalize_text "!!!" = "" ∧ normalize_text "???" = "" ∧
    compute_similarity "???" "!!!" = 1 ∧
    (deduplicate_heap 0 [punctA, punctB]).2 = [0] ∧
    ((deduplicate_heap 0 [punctA, punctB]).1.getD 0 default).sources =
      some ["sa", "sb"] := by
  refine ⟨by decide, by decide, sim_punct, ?_, ?_⟩
  · rw [dedup_punct_run]
  · rw [dedup_punct_run]
    rfl

/-- C10 (amended): similarity is `0` whenever either raw string is empty
(so genuinely empty titles never trigger a merge), and `similarity(a,a) = 1`
for every non-empty `a` whose normalized form is shorter than 200
characters - below `difflib`'s autojunk threshold, where the documented
earliest-maximal-block contract governs the ratio (at 200 and above the
ratio is computed through the popularity-purged `b2j` table modelled by
`smMatchesAJ`); but raw-non-empty strings that normalize to the empty
string compare with ratio `1.0` and are treated as near-duplicates
(see the counterexample). -/
theorem C10_amended_similarity_empty_and_self :
    (∀ a b : String, a = "" ∨ b = "" → compute_similarity a b = 0) ∧
    (∀ a : String, a ≠ "" → (normalize_text a).length < 200 →
      compute_similarity a a = 1) :=
  ⟨compute_similarity_empty, compute_similarity_self⟩

/-- C10 (witness): similarity of an empty title against a non-empty one is
0, and self-similarity of a short non-empty title is 1. -/
theorem C10_witness :
    compute_similarity "" "abc" = 0 ∧ compute_similarity "abc" "abc" = 1 :=
  ⟨C10_amended_similarity_empty_and_self.1 "" "abc" (Or.inl rfl),
    C10_amended_similarity_empty_and_self.2 "abc" (by decide) (by decide)⟩
